import Mathlib

/-!
# Verification of the pixi-layout-engine grid placement core

Shallow embedding of the grid placement engine (`layouts.ts` /
`src/unnamed/part_001`) and proofs about it.

Modelling conventions:
* JS numbers carrying continuous quantities (widths, heights, gaps,
  positions) are modelled as `ℚ`; JS integer quantities (grid indices,
  counts, spans) as `ℕ`.  `columns` and `rows` are modelled as `ℕ`, the
  value `0` standing for the non-positive / degenerate configuration.
* Optional JS object fields are `Option` fields; `undefined` is `none`.
  A JS truthiness test on a number field (`options.fixedWidth && ...`)
  is `none`-or-zero ↦ false.
* In-place mutation of a component's `position` (and cosmetic fields)
  is modelled functionally: every layout returns the updated item list
  together with the bounding box it computes.
* Irrational helpers of the rendering maths (`Math.sqrt`, `Math.cos`,
  `Math.sin`) are taken as *parameters* of the embedding; every theorem
  below is universally quantified over them, so nothing proved depends
  on their values.
-/

namespace PixiLayout

/-- A 2-D point, the value stored in a component's `position` field. -/
structure P2 where
  x : ℚ
  y : ℚ
deriving DecidableEq, Repr

/-- `LayoutComponent` (types.ts): width/height, optional spans and the
mutable output fields the grid engine writes (`position`, `visible`,
`scale.x`). -/
structure Item where
  width : ℚ := 0
  height : ℚ := 0
  colSpan : Option ℕ := none
  rowSpan : Option ℕ := none
  visible : Option Bool := none
  scaleX : Option ℚ := none
  pos : P2 := ⟨0, 0⟩
deriving DecidableEq, Repr

/-- `sizingMode` option: `"auto"` or `"fixed"`. -/
inductive SizingMode | auto | fixed
deriving DecidableEq, Repr

/-- `alignItems` / `justifyItems` / `lastRowAlign` values. -/
inductive Align | start | center | endSide
deriving DecidableEq, Repr

/-- `overflowAlignment` values of the perimeter grid. -/
inductive OverflowAlign | start | center | endSide | justifyCorners
deriving DecidableEq, Repr

/-- `startCorner` values of the perimeter grid. -/
inductive Corner | topLeft | topRight | bottomRight | bottomLeft
deriving DecidableEq, Repr

/-- `direction` values of the perimeter grid. -/
inductive RotDir | clockwise | counterClockwise
deriving DecidableEq, Repr

/-- `priorityDirection` values of the perimeter grid. -/
inductive PriorityDir | rows | columns
deriving DecidableEq, Repr

/-- `honeycombOrientation` values. -/
inductive HexOrient | pointyTop | flatTop
deriving DecidableEq, Repr

/-- The flags `_layoutSquareSimple` extracts from the `flowDirection`
string via `includes('column')`, `includes('snake')`,
`includes('bottom')`, `includes('right')`.  The exact string
`"default"` corresponds to all four flags false. -/
structure FlowFlags where
  isColumn : Bool := false
  isSnake : Bool := false
  fromBottom : Bool := false
  fromRight : Bool := false
deriving DecidableEq, Repr

/-- The `flowDirection` values routed by `_layoutSquare` to the
strategies embedded in this development.  `simple` covers the closed
form family handled by `_layoutSquareSimple` (default / snake / column
/ bottom / right combinations). -/
inductive FlowDir
  | simple (flags : FlowFlags)
  | honeycomb
  | hilbertCurve
  | zOrder
  | cornerConverge
  | diamondFill
deriving DecidableEq, Repr

/-- The subset of `LayoutOptions` read by the embedded functions.
Fields whose JS default is chosen per-function by destructuring
(`const { columns = 3 } = options`) are `Option`s here and each
embedded function applies its own default. -/
structure LayoutOptions where
  columns : Option ℕ := none
  rows : Option ℕ := none
  autoRows : Bool := false
  flowDirection : FlowDir := .simple {}
  useGridSpanning : Bool := false
  sizingMode : SizingMode := .auto
  fixedWidth : Option ℚ := none
  fixedHeight : Option ℚ := none
  columnGap : Option ℚ := none
  rowGap : Option ℚ := none
  spacing : Option ℚ := none
  alignItems : Align := .start
  justifyItems : Align := .start
  lastRowAlign : Align := .start
  flowReverse : Bool := false
  honeycombOrientation : HexOrient := .pointyTop
  cornerOffset : ℚ := 0
  excludeCorners : Bool := false
  priorityDirection : PriorityDir := .columns
  overflowAlignment : OverflowAlign := .start
  equalDistribution : Bool := false
  startCorner : Corner := .topLeft
  direction : RotDir := .clockwise
  offset : ℚ := 0
  globalRotation : ℚ := 0
  perspectiveY : ℚ := 1
  depthScale : ℚ := 0
  enableZIndex : Bool := false
deriving Repr

/-- The returned bounding box. -/
structure Bounds where
  minX : ℚ
  minY : ℚ
  maxX : ℚ
  maxY : ℚ
deriving DecidableEq, Repr

/-- `{ minX: 0, minY: 0, maxX: 0, maxY: 0 }`. -/
def zeroBounds : Bounds := ⟨0, 0, 0, 0⟩

/-- JS truthiness of an optional numeric field. -/
def qTruthy : Option ℚ → Bool
  | none => false
  | some v => v != 0

/-- Result record of `_calculateGridCellSize`. -/
structure GridMetrics where
  maxChildWidth : ℚ
  maxChildHeight : ℚ
  cellWidth : ℚ
  cellHeight : ℚ
  columnGap : ℚ
  rowGap : ℚ
deriving DecidableEq, Repr

/-- `_calculateGridCellSize` (part_001 : 1346-1376).
`columnGap = options.columnGap ?? options.spacing ?? 0`; fixed branch
requires `sizingMode === "fixed"` and both fixed dimensions truthy;
otherwise the maxima of the components' widths/heights are folded
starting from `0`. -/
def _calculateGridCellSize (components : List Item) (options : LayoutOptions) :
    GridMetrics :=
  let columnGap := (options.columnGap.getD (options.spacing.getD 0))
  let rowGap := (options.rowGap.getD (options.spacing.getD 0))
  if options.sizingMode = .fixed ∧ qTruthy options.fixedWidth ∧
      qTruthy options.fixedHeight then
    { maxChildWidth := options.fixedWidth.getD 0
      maxChildHeight := options.fixedHeight.getD 0
      cellWidth := options.fixedWidth.getD 0 + columnGap
      cellHeight := options.fixedHeight.getD 0 + rowGap
      columnGap := columnGap
      rowGap := rowGap }
  else
    let maxChildWidth :=
      components.foldl (fun m child => if child.width > m then child.width else m) 0
    let maxChildHeight :=
      components.foldl (fun m child => if child.height > m then child.height else m) 0
    { maxChildWidth := maxChildWidth
      maxChildHeight := maxChildHeight
      cellWidth := maxChildWidth + columnGap
      cellHeight := maxChildHeight + rowGap
      columnGap := columnGap
      rowGap := rowGap }

/-! ### Basic facts about the fold computing the maximum item size -/

lemma foldl_max_le (l : List Item) (f : Item → ℚ) (a : ℚ) :
    a ≤ l.foldl (fun m child => if f child > m then f child else m) a := by
  induction l generalizing a with
  | nil => simp
  | cons x xs ih =>
    simp only [List.foldl_cons]
    refine le_trans ?_ (ih _)
    split
    · simp_all; linarith
    · simp_all

lemma foldl_max_mem_le (l : List Item) (f : Item → ℚ) (a : ℚ) (x : Item)
    (hx : x ∈ l) :
    f x ≤ l.foldl (fun m child => if f child > m then f child else m) a := by
  induction l generalizing a with
  | nil => simp at hx
  | cons y ys ih =>
    simp only [List.foldl_cons]
    rcases List.mem_cons.mp hx with h | h
    · subst h
      refine le_trans ?_ (foldl_max_le ys f _)
      split
      · simp_all
      · simp_all
    · exact ih _ h

lemma foldl_max_attained (l : List Item) (f : Item → ℚ) (a : ℚ) :
    l.foldl (fun m child => if f child > m then f child else m) a = a ∨
      ∃ x ∈ l, l.foldl (fun m child => if f child > m then f child else m) a = f x := by
  induction l generalizing a with
  | nil => simp
  | cons y ys ih =>
    simp only [List.foldl_cons]
    by_cases h : f y > a
    · simp only [if_pos h]
      rcases ih (f y) with h' | ⟨x, hx, h'⟩
      · exact Or.inr ⟨y, List.mem_cons_self _ _, h'⟩
      · exact Or.inr ⟨x, List.mem_cons_of_mem _ hx, h'⟩
    · simp only [if_neg h]
      rcases ih a with h' | ⟨x, hx, h'⟩
      · exact Or.inl h'
      · exact Or.inr ⟨x, List.mem_cons_of_mem _ hx, h'⟩

/-! ### C9 — cell metrics -/

/-- C9 (counterexample): the claim says "an empty collection yields
zero metrics", but `_calculateGridCellSize` on an empty collection in
fixed sizing mode (both fixed dimensions supplied and nonzero) returns
the fixed dimensions, not zero: here `maxItemWidth = 5 ≠ 0`. -/
theorem C9_counterexample :
    (_calculateGridCellSize []
        { sizingMode := .fixed, fixedWidth := some 5, fixedHeight := some 7 }
      ).maxChildWidth = 5 ∧ (5 : ℚ) ≠ 0 := by
  constructor
  · simp [_calculateGridCellSize, qTruthy]
  · norm_num

/-- C9 (amended): for every item collection and options the metrics
satisfy `cellWidth = maxItemWidth + columnGap` and
`cellHeight = maxItemHeight + rowGap`.  When sizing mode is `fixed`
*and both fixed dimensions are supplied and nonzero*, the max item
dimensions are exactly the fixed values, independent of the actual
item collection.  Otherwise they are the suprema of the items' widths
and heights (each is an upper bound and is either `0` or attained by
some item), and an empty collection yields zero max dimensions, so the
cell sizes degenerate to the gaps (zero metrics when the gaps are
zero). -/
theorem C9_cell_metrics (components : List Item) (options : LayoutOptions) :
    (_calculateGridCellSize components options).cellWidth =
        (_calculateGridCellSize components options).maxChildWidth +
          (_calculateGridCellSize components options).columnGap ∧
    (_calculateGridCellSize components options).cellHeight =
        (_calculateGridCellSize components options).maxChildHeight +
          (_calculateGridCellSize components options).rowGap ∧
    (if options.sizingMode = .fixed ∧ qTruthy options.fixedWidth ∧
          qTruthy options.fixedHeight then
        (_calculateGridCellSize components options).maxChildWidth =
            options.fixedWidth.getD 0 ∧
        (_calculateGridCellSize components options).maxChildHeight =
            options.fixedHeight.getD 0 ∧
        ∀ other : List Item,
          _calculateGridCellSize other options =
            _calculateGridCellSize components options
      else
        (∀ it ∈ components,
            it.width ≤ (_calculateGridCellSize components options).maxChildWidth ∧
            it.height ≤ (_calculateGridCellSize components options).maxChildHeight) ∧
        ((_calculateGridCellSize components options).maxChildWidth = 0 ∨
          ∃ it ∈ components,
            (_calculateGridCellSize components options).maxChildWidth = it.width) ∧
        ((_calculateGridCellSize components options).maxChildHeight = 0 ∨
          ∃ it ∈ components,
            (_calculateGridCellSize components options).maxChildHeight = it.height) ∧
        (components = [] →
          (_calculateGridCellSize components options).maxChildWidth = 0 ∧
          (_calculateGridCellSize components options).maxChildHeight = 0 ∧
          (_calculateGridCellSize components options).cellWidth =
            (_calculateGridCellSize components options).columnGap ∧
          (_calculateGridCellSize components options).cellHeight =
            (_calculateGridCellSize components options).rowGap)) := by
  by_cases hfix : options.sizingMode = .fixed ∧ qTruthy options.fixedWidth ∧
      qTruthy options.fixedHeight
  · simp only [_calculateGridCellSize, if_pos hfix]
    exact ⟨trivial, trivial, trivial, trivial, fun _ => trivial⟩
  · simp only [_calculateGridCellSize, if_neg hfix]
    refine ⟨trivial, trivial, ?_, ?_, ?_, ?_⟩
    · intro it hit
      exact ⟨foldl_max_mem_le _ _ _ _ hit, foldl_max_mem_le _ _ _ _ hit⟩
    · rcases foldl_max_attained components (Item.width) 0 with h | ⟨x, hx, h⟩
      · exact Or.inl h
      · exact Or.inr ⟨x, hx, h⟩
    · rcases foldl_max_attained components (Item.height) 0 with h | ⟨x, hx, h⟩
      · exact Or.inl h
      · exact Or.inr ⟨x, hx, h⟩
    · rintro rfl
      simp

/-! ### forEach-with-index helper -/

/-- `components.forEach((child, i) => ...)` collecting the per-item
results, starting at index `i₀`. -/
def forEachIdxFrom (f : ℕ → α → β) : ℕ → List α → List β
  | _, [] => []
  | i, c :: rest => f i c :: forEachIdxFrom f (i + 1) rest

/-- `components.forEach((child, i) => ...)` collecting the results. -/
def forEachIdx (f : ℕ → α → β) (l : List α) : List β :=
  forEachIdxFrom f 0 l

lemma length_forEachIdxFrom (f : ℕ → α → β) (i : ℕ) (l : List α) :
    (forEachIdxFrom f i l).length = l.length := by
  induction l generalizing i with
  | nil => rfl
  | cons c rest ih => simp [forEachIdxFrom, ih]

lemma length_forEachIdx (f : ℕ → α → β) (l : List α) :
    (forEachIdx f l).length = l.length :=
  length_forEachIdxFrom f 0 l

lemma getElem_forEachIdxFrom (f : ℕ → α → β) (i₀ : ℕ) (l : List α) (j : ℕ)
    (hj : j < l.length) (hj' : j < (forEachIdxFrom f i₀ l).length) :
    (forEachIdxFrom f i₀ l)[j] = f (i₀ + j) l[j] := by
  induction l generalizing i₀ j with
  | nil => simp at hj
  | cons c rest ih =>
    cases j with
    | zero => simp [forEachIdxFrom]
    | succ j =>
      have hj2 : j < rest.length := by simpa using hj
      have hj2' : j < (forEachIdxFrom f (i₀ + 1) rest).length := by
        rw [length_forEachIdxFrom]; exact hj2
      simp only [forEachIdxFrom, List.getElem_cons_succ]
      rw [ih (i₀ + 1) j hj2 hj2']
      ring_nf

lemma getElem_forEachIdx (f : ℕ → α → β) (l : List α) (j : ℕ)
    (hj : j < l.length) (hj' : j < (forEachIdx f l).length) :
    (forEachIdx f l)[j] = f j l[j] := by
  have := getElem_forEachIdxFrom f 0 l j hj hj'
  simpa using this

/-- `_calculateBoundsFromComponents` (part_001 : 200-218).  The JS
seeds the fold with `±Infinity`; for a non-empty list this equals
folding from the first component's box, which is how it is modelled
here. -/
def _calculateBoundsFromComponents (components : List Item)
    (options : LayoutOptions) : Bounds :=
  let useFixed := options.sizingMode = .fixed
  let fixedWidth := options.fixedWidth.getD 0
  let fixedHeight := options.fixedHeight.getD 0
  let box := fun (c : Item) =>
    let childWidth := if useFixed then fixedWidth else c.width
    let childHeight := if useFixed then fixedHeight else c.height
    (c.pos.x - childWidth / 2, c.pos.y - childHeight / 2,
      c.pos.x + childWidth / 2, c.pos.y + childHeight / 2)
  match components with
  | [] => zeroBounds
  | c :: rest =>
    let b :=
      rest.foldl
        (fun acc c =>
          let b := box c
          (min acc.1 b.1, min acc.2.1 b.2.1, max acc.2.2.1 b.2.2.1,
            max acc.2.2.2 b.2.2.2))
        (box c)
    ⟨b.1, b.2.1, b.2.2.1, b.2.2.2⟩

/-! ### `_layoutSquareSimple` -/

/-- `flowDirection === 'honeycomb'`. -/
def flowIsHoneycomb : FlowDir → Bool
  | .honeycomb => true
  | _ => false

/-- The `includes('column')` / `includes('snake')` / `includes('bottom')`
/ `includes('right')` flags of a flow string; every non-`simple` flow
routed to `_layoutSquareSimple` (only `'honeycomb'`) contains none of
those substrings. -/
def flowFlags : FlowDir → FlowFlags
  | .simple f => f
  | _ => {}

/-- `flowDirection === 'default'`. -/
def flowIsDefault : FlowDir → Bool
  | .simple ⟨false, false, false, false⟩ => true
  | _ => false

/-- `flowDirection === 'snake'` (the exact string, as tested by
`_layoutSquareWithSpanning`). -/
def flowIsExactSnake : FlowDir → Bool
  | .simple ⟨false, true, false, false⟩ => true
  | _ => false

/-- `Math.ceil(n / c)` for natural `n, c` with `c > 0`; `0` when
`c = 0` (the JS value is then non-finite — see the modelling note on
`_layoutSquareSimple`). -/
def ceilDiv (n c : ℕ) : ℕ := (n + c - 1) / c

/-- `_layoutSquareSimple` (part_001 : 822-963).  Returns the updated
item list and the bounding box.  `sqrt3` is the value of
`Math.sqrt(3)` (only the honeycomb branch reads it).

Modelling note for `columns = 0`: the JS arithmetic produces
non-finite coordinates but still calls `child.position.set` on every
component; here the (irrelevant) ℕ conventions `i / 0 = 0`,
`i % 0 = i` are used, and no theorem below refers to the numeric
coordinate values in that case — only to the fact that every item's
position is (re)written. -/
def _layoutSquareSimple (sqrt3 : ℚ) (components : List Item)
    (options : LayoutOptions) : List Item × Bounds :=
  let columns := options.columns.getD 3
  let flowDirection := options.flowDirection
  let flowReverse := options.flowReverse
  let lastRowAlign := options.lastRowAlign
  let alignItems := options.alignItems
  let justifyItems := options.justifyItems
  let honeycombOrientation := options.honeycombOrientation
  let cornerOffset := options.cornerOffset
  if components = [] then (components, zeroBounds) else
  let m := _calculateGridCellSize components options
  let totalRows := ceilDiv components.length columns
  let isHoneycombFlow := flowIsHoneycomb flowDirection
  let hex :=
    if honeycombOrientation = .pointyTop then
      let requiredWidthFromHeight := m.maxChildHeight * (2 / sqrt3)
      let hexWidth := max m.maxChildWidth requiredWidthFromHeight
      let hexHeight := hexWidth * (sqrt3 / 2)
      (hexWidth * (3/4) + m.columnGap, hexHeight + m.rowGap)
    else
      let requiredHeightFromWidth := m.maxChildWidth * (2 / sqrt3)
      let hexHeight := max m.maxChildHeight requiredHeightFromWidth
      let hexWidth := hexHeight * (sqrt3 / 2)
      (hexWidth + m.columnGap, hexHeight * (3/4) + m.rowGap)
  let xStep := hex.1
  let yStep := hex.2
  let gridWidth := columns * m.cellWidth - m.columnGap
  let isColumnFlow := (flowFlags flowDirection).isColumn
  let isSnakeFlow := (flowFlags flowDirection).isSnake
  let startFromBottom := (flowFlags flowDirection).fromBottom
  let startFromRight := (flowFlags flowDirection).fromRight
  let itemsOnLastRow :=
    if components.length % columns = 0 then columns
    else components.length % columns
  let lastRowOffsetX :=
    if lastRowAlign ≠ .start ∧ ¬isColumnFlow ∧ ¬isSnakeFlow ∧
        ¬startFromRight ∧ 0 < itemsOnLastRow ∧ ¬isHoneycombFlow then
      let lastRowContentWidth := itemsOnLastRow * m.cellWidth - m.columnGap
      let emptySpace := gridWidth - lastRowContentWidth
      if lastRowAlign = .center then emptySpace / 2
      else if lastRowAlign = .endSide then emptySpace
      else 0
    else (0 : ℚ)
  let place := fun (i : ℕ) (child : Item) =>
    let useFixed := options.sizingMode = .fixed
    let childWidth := if useFixed then options.fixedWidth.getD 0 else child.width
    let childHeight := if useFixed then options.fixedHeight.getD 0 else child.height
    let base :=
      if isColumnFlow then (i % totalRows, i / totalRows)
      else (i / columns, i % columns)
    let base :=
      if isSnakeFlow then
        if isColumnFlow then
          if base.2 % 2 ≠ 0 then (totalRows - 1 - base.1, base.2) else base
        else
          if base.1 % 2 ≠ 0 then (base.1, columns - 1 - base.2) else base
      else base
    let baseRow := base.1
    let baseCol := base.2
    let finalRow₀ := if startFromBottom then totalRows - 1 - baseRow else baseRow
    let finalCol := if startFromRight then columns - 1 - baseCol else baseCol
    let finalRow :=
      if flowReverse ∧ ¬startFromBottom ∧ ¬startFromRight then
        totalRows - 1 - baseRow
      else finalRow₀
    let cell :=
      if isHoneycombFlow then
        if honeycombOrientation = .pointyTop then
          ((finalCol : ℚ) * xStep,
            (finalRow : ℚ) * yStep + (if finalCol % 2 = 1 then yStep / 2 else 0))
        else
          ((finalCol : ℚ) * xStep + (if finalRow % 2 = 1 then xStep / 2 else 0),
            (finalRow : ℚ) * yStep)
      else
        let isLastRow := finalRow = totalRows - 1
        ((if isLastRow ∧ flowIsDefault flowDirection then lastRowOffsetX else 0) +
            (finalCol : ℚ) * m.cellWidth,
          (finalRow : ℚ) * m.cellHeight)
    let cellX := cell.1
    let cellY := cell.2
    let childCenterX :=
      match justifyItems with
      | .endSide => cellX + m.maxChildWidth - childWidth / 2
      | .center => cellX + m.maxChildWidth / 2
      | .start => cellX + childWidth / 2
    let childCenterY :=
      match alignItems with
      | .endSide => cellY + m.maxChildHeight - childHeight / 2
      | .center => cellY + m.maxChildHeight / 2
      | .start => cellY + childHeight / 2
    let nudged :=
      if cornerOffset ≠ 0 then
        let isTop := finalRow = 0
        let isBottom := finalRow = totalRows - 1
        let isLeft := finalCol = 0
        let isRight := finalCol = columns - 1
        if isTop ∧ isLeft then
          (childCenterX - cornerOffset, childCenterY - cornerOffset)
        else if isTop ∧ isRight then
          (childCenterX + cornerOffset, childCenterY - cornerOffset)
        else if isBottom ∧ isLeft then
          (childCenterX - cornerOffset, childCenterY + cornerOffset)
        else if isBottom ∧ isRight then
          (childCenterX + cornerOffset, childCenterY + cornerOffset)
        else (childCenterX, childCenterY)
      else (childCenterX, childCenterY)
    { child with pos := ⟨nudged.1, nudged.2⟩ }
  let updated := forEachIdx place components
  if isHoneycombFlow then
    (updated, _calculateBoundsFromComponents updated options)
  else
    let totalHeight := (totalRows : ℚ) * m.cellHeight - m.rowGap
    if cornerOffset > 0 then
      (updated,
        ⟨-cornerOffset, -cornerOffset, gridWidth + cornerOffset,
          totalHeight + cornerOffset⟩)
    else (updated, ⟨0, 0, gridWidth, totalHeight⟩)

lemma getElem?_forEachIdx (f : ℕ → α → β) (l : List α) (j : ℕ) :
    (forEachIdx f l)[j]? = (l[j]?).map (f j) := by
  by_cases hj : j < l.length
  · have hj' : j < (forEachIdx f l).length := by rw [length_forEachIdx]; exact hj
    rw [List.getElem?_eq_getElem hj', List.getElem?_eq_getElem hj,
      getElem_forEachIdx f l j hj hj']
    rfl
  · rw [List.getElem?_eq_none (by rw [length_forEachIdx]; omega),
      List.getElem?_eq_none (by omega)]
    rfl

/-! ### C2 — simple grid, default flow -/

unseal Rat.add Rat.mul Rat.sub Rat.inv in
/-- C2 (counterexample): with two items of widths 10 and 20
(`maxItemWidth = 20`, `cellWidth = 20`), `columns = 2` and all-default
options, the first item's center is written at `x = 0·cellWidth +`
*its own* `width/2 = 5`, not at `0·cellWidth + maxItemWidth/2 = 10` as
the claim states. -/
theorem C2_counterexample :
    ((_layoutSquareSimple 0
          [{ width := 10, height := 10 }, { width := 20, height := 10 }]
          { columns := some 2 }).1)[0]? =
        some { width := 10, height := 10, pos := ⟨5, 5⟩ } ∧
      (5 : ℚ) ≠ (0 : ℚ) * 20 + 20 / 2 := by
  constructor
  · decide
  · decide

/-- C2 (amended): for every item collection, every column count
`C ≥ 1` and arbitrary gap options, the simple grid layout under the
default flow direction assigns item `i` the grid cell
`row = ⌊i/C⌋`, `col = i mod C`, and places its center at
`(col·cellWidth + wᵢ/2, row·cellHeight + hᵢ/2)` where `wᵢ, hᵢ` are the
*item's own* width and height (the default `justifyItems`/`alignItems`
are `'start'`; the claimed `maxItemWidth/2, maxItemHeight/2` offsets
only arise for items of maximal size or under `'center'` alignment). -/
theorem C2_simple_default_grid (s3 : ℚ) (items : List Item) (C : ℕ)
    (hC : 1 ≤ C) (g1 g2 sp : Option ℚ) (i : ℕ) (it : Item)
    (hit : items[i]? = some it) :
    ((_layoutSquareSimple s3 items
          { columns := some C, columnGap := g1, rowGap := g2,
            spacing := sp }).1)[i]? =
      some { it with pos :=
        ⟨(i % C : ℕ) *
            (_calculateGridCellSize items
              { columns := some C, columnGap := g1, rowGap := g2,
                spacing := sp }).cellWidth + it.width / 2,
          (i / C : ℕ) *
            (_calculateGridCellSize items
              { columns := some C, columnGap := g1, rowGap := g2,
                spacing := sp }).cellHeight + it.height / 2⟩ } := by
  have hne : items ≠ [] := by
    intro h
    subst h
    simp at hit
  simp only [_layoutSquareSimple, if_neg hne, flowFlags, flowIsHoneycomb,
    flowIsDefault, Bool.false_eq_true, if_false, lt_self_iff_false, ite_self]
  rw [getElem?_forEachIdx, hit]
  norm_num
  simp

unseal Rat.add Rat.mul Rat.sub Rat.inv in
/-- Witness for `C2_simple_default_grid`: two 10×20 items, two columns,
item 1 lands in cell (0,1). -/
theorem C2_simple_default_grid_witness :
    (1 : ℕ) ≤ 2 ∧
    ((_layoutSquareSimple 0
          [{ width := 10, height := 20 }, { width := 10, height := 20 }]
          { columns := some 2, columnGap := none, rowGap := none,
            spacing := none }).1)[1]? =
      some { ({ width := 10, height := 20 } : Item) with pos :=
        ⟨((1 % 2 : ℕ) : ℚ) *
            (_calculateGridCellSize
              [{ width := 10, height := 20 }, { width := 10, height := 20 }]
              { columns := some 2, columnGap := none, rowGap := none,
                spacing := none }).cellWidth + (10 : ℚ) / 2,
          ((1 / 2 : ℕ) : ℚ) *
            (_calculateGridCellSize
              [{ width := 10, height := 20 }, { width := 10, height := 20 }]
              { columns := some 2, columnGap := none, rowGap := none,
                spacing := none }).cellHeight + (20 : ℚ) / 2⟩ } :=
  ⟨by decide,
    C2_simple_default_grid 0
      [{ width := 10, height := 20 }, { width := 10, height := 20 }] 2
      (by decide) none none none 1 { width := 10, height := 20 } (by decide)⟩

/-! ### `_layoutSquareWithSpanning` — the occupancy-grid spanning placer

The JS occupancy grid is an array of boolean rows, grown lazily; rows
are only ever *read* through `occupancyGrid[r]?.[c]` (missing entries
read as falsy) and the array length feeds only the grow-loop itself,
so the grid is faithfully modelled as the finite set of cells that
have been marked occupied.  Marking a cell past the end of a row
extends that row (the JS array grows), which is why a block may extend
past column `columns - 1` — see `C1_counterexample`. -/

/-- One entry of the `placedItems` array of the spanning placer. -/
structure PlacedItem where
  component : Item
  row : ℕ
  col : ℕ
  rowSpan : ℕ
  colSpan : ℕ
  childWidth : ℚ
  childHeight : ℚ
deriving DecidableEq, Repr

/-- `child.colSpan || 1` / `child.rowSpan || 1` (`undefined` and `0`
are falsy in JS). -/
def spanOr1 : Option ℕ → ℕ
  | none => 1
  | some v => if v = 0 then 1 else v

/-- The cells of a `rowSpan × colSpan` block anchored at `(row, col)`. -/
def blockCells (row col rowSpan colSpan : ℕ) : Finset (ℕ × ℕ) :=
  (Finset.range rowSpan ×ˢ Finset.range colSpan).image
    (fun q => (row + q.1, col + q.2))

/-- The block of a placement record. -/
def PlacedItem.block (p : PlacedItem) : Finset (ℕ × ℕ) :=
  blockCells p.row p.col p.rowSpan p.colSpan

/-- The `canFit` double loop: every cell of the block reads unoccupied
(out-of-range reads are falsy, hence "free"). -/
def canFit (occ : Finset (ℕ × ℕ)) (row col rowSpan colSpan : ℕ) : Bool :=
  decide (∀ p ∈ blockCells row col rowSpan colSpan, p ∉ occ)

/-- The start columns scanned in one row:
`for (c = startCol; c !== endCol; c += step)` — left-to-right over all
of `[0, columns)`, or right-to-left from `columns - colSpan` down to
`0` on a snake row. -/
def candCols (columns colSpan : ℕ) (isSnakeRow : Bool) : List ℕ :=
  if isSnakeRow then (List.range (columns - colSpan + 1)).reverse
  else List.range columns

/-- The `while (!foundPosition)` search: scan the candidate columns of
`searchRow`, else retry on `searchRow + 1`.  JS loops forever when no
row can ever fit (only possible for `columns ≤ 0`); the model uses
explicit fuel and `findSpot_isSome` below shows the fuel the placer
passes always suffices when `columns ≥ 1`. -/
def findSpot (occ : Finset (ℕ × ℕ)) (columns colSpan rowSpan : ℕ)
    (snakeFlow : Bool) : ℕ → ℕ → Option (ℕ × ℕ)
  | 0, _ => none
  | fuel + 1, searchRow =>
    match (candCols columns colSpan (snakeFlow && searchRow % 2 != 0)).find?
        (fun c => canFit occ searchRow c rowSpan colSpan) with
    | some c => some (searchRow, c)
    | none => findSpot occ columns colSpan rowSpan snakeFlow fuel (searchRow + 1)

/-- The state threaded through the placement loop. -/
structure SpanState where
  occupancyGrid : Finset (ℕ × ℕ)
  placedItems : List PlacedItem
  maxRowUsed : ℕ

/-- Placing one component: compute the effective spans
(`colSpan = min(child.colSpan || 1, columns)`, `rowSpan = child.rowSpan
|| 1`), search for the first fitting spot, mark the block occupied and
record the placement. -/
def placeStep (columns : ℕ) (snakeFlow : Bool) (useFixed : Bool)
    (fw fh : ℚ) (st : SpanState) (child : Item) : SpanState :=
  let childWidth := if useFixed then fw else child.width
  let childHeight := if useFixed then fh else child.height
  let colSpan := min (spanOr1 child.colSpan) columns
  let rowSpan := spanOr1 child.rowSpan
  let fuel := st.occupancyGrid.sup Prod.fst + 2
  match findSpot st.occupancyGrid columns colSpan rowSpan snakeFlow fuel 0 with
  | none => st
  | some (r, c) =>
    { occupancyGrid := st.occupancyGrid ∪ blockCells r c rowSpan colSpan
      placedItems := st.placedItems ++
        [⟨child, r, c, rowSpan, colSpan, childWidth, childHeight⟩]
      maxRowUsed := max st.maxRowUsed (r + rowSpan - 1) }

/-- The final placement state of `_layoutSquareWithSpanning`. -/
def spanningState (components : List Item) (options : LayoutOptions) :
    SpanState :=
  let columns := options.columns.getD 3
  let snakeFlow := flowIsExactSnake options.flowDirection
  let useFixed := options.sizingMode = .fixed
  components.foldl
    (placeStep columns snakeFlow useFixed (options.fixedWidth.getD 0)
      (options.fixedHeight.getD 0))
    ⟨∅, [], 0⟩

/-- The `placedItems` array of the spanning placer. -/
def spanningPlacedItems (components : List Item) (options : LayoutOptions) :
    List PlacedItem :=
  (spanningState components options).placedItems

/-- `totalRows = maxRowUsed + 1`. -/
def spanningTotalRows (components : List Item) (options : LayoutOptions) : ℕ :=
  (spanningState components options).maxRowUsed + 1

/-- `_layoutSquareWithSpanning` (part_001 : 1071-1221): place all
components, then project each placement to a Cartesian center and fold
the grid bounds. -/
def _layoutSquareWithSpanning (components : List Item)
    (options : LayoutOptions) : List Item × Bounds :=
  let columns := options.columns.getD 3
  let alignItems := options.alignItems
  let justifyItems := options.justifyItems
  let cornerOffset := options.cornerOffset
  if components = [] then (components, zeroBounds) else
  let m := _calculateGridCellSize components options
  let totalRows := spanningTotalRows components options
  let project := fun (item : PlacedItem) =>
    let spannedWidth := (item.colSpan : ℚ) * m.cellWidth - m.columnGap
    let spannedHeight := (item.rowSpan : ℚ) * m.cellHeight - m.rowGap
    let cellX := (item.col : ℚ) * m.cellWidth
    let cellY := (item.row : ℚ) * m.cellHeight
    let childCenterX :=
      match justifyItems with
      | .endSide => cellX + spannedWidth - item.childWidth / 2
      | .center => cellX + spannedWidth / 2
      | .start => cellX + item.childWidth / 2
    let childCenterY :=
      match alignItems with
      | .endSide => cellY + spannedHeight - item.childHeight / 2
      | .center => cellY + spannedHeight / 2
      | .start => cellY + item.childHeight / 2
    let p := (childCenterX, childCenterY)
    let p :=
      if cornerOffset ≠ 0 then
        let isTop := item.row = 0
        let isBottom := item.row + item.rowSpan = totalRows
        let isLeft := item.col = 0
        let isRight := item.col + item.colSpan = columns
        let p := if isTop ∧ isLeft then (p.1 - cornerOffset, p.2 - cornerOffset) else p
        let p := if isTop ∧ isRight then (p.1 + cornerOffset, p.2 - cornerOffset) else p
        let p := if isBottom ∧ isLeft then (p.1 - cornerOffset, p.2 + cornerOffset) else p
        if isBottom ∧ isRight then (p.1 + cornerOffset, p.2 + cornerOffset) else p
      else p
    { item.component with pos := ⟨p.1, p.2⟩ }
  let updated := (spanningPlacedItems components options).map project
  let gridWidth := (columns : ℚ) * m.cellWidth - m.columnGap
  let totalHeight := (totalRows : ℚ) * m.cellHeight - m.rowGap
  if cornerOffset > 0 then
    (updated,
      ⟨-cornerOffset, -cornerOffset, gridWidth + cornerOffset,
        totalHeight + cornerOffset⟩)
  else (updated, ⟨0, 0, gridWidth, totalHeight⟩)

/-! ### Spanning placer: invariants -/

lemma one_le_spanOr1 (o : Option ℕ) : 1 ≤ spanOr1 o := by
  cases o with
  | none => simp [spanOr1]
  | some v => simp only [spanOr1]; split <;> omega

lemma candCols_lt (columns colSpan : ℕ) (b : Bool) (hcs : 1 ≤ colSpan)
    (hcols : 1 ≤ columns) (c : ℕ) (h : c ∈ candCols columns colSpan b) :
    c < columns := by
  cases b <;> simp [candCols] at h <;> omega

lemma candCols_ne_nil (columns colSpan : ℕ) (b : Bool) (hc : 1 ≤ columns) :
    candCols columns colSpan b ≠ [] := by
  cases b <;> simp [candCols, List.range_eq_nil] <;> omega

lemma mem_blockCells {row col rowSpan colSpan : ℕ} {p : ℕ × ℕ} :
    p ∈ blockCells row col rowSpan colSpan ↔
      ∃ ro < rowSpan, ∃ co < colSpan, p = (row + ro, col + co) := by
  simp only [blockCells, Finset.mem_image, Finset.mem_product, Finset.mem_range,
    Prod.exists]
  constructor
  · rintro ⟨a, b, ⟨ha, hb⟩, rfl⟩
    exact ⟨a, ha, b, hb, rfl⟩
  · rintro ⟨a, ha, b, hb, rfl⟩
    exact ⟨a, b, ⟨ha, hb⟩, rfl⟩

lemma findSpot_eq_some {occ : Finset (ℕ × ℕ)} {columns colSpan rowSpan : ℕ}
    {snake : Bool} {fuel startRow r c : ℕ}
    (h : findSpot occ columns colSpan rowSpan snake fuel startRow = some (r, c)) :
    canFit occ r c rowSpan colSpan = true ∧
      ∃ b, c ∈ candCols columns colSpan b := by
  induction fuel generalizing startRow with
  | zero => simp [findSpot] at h
  | succ fuel ih =>
    rw [findSpot] at h
    rcases hfind : (candCols columns colSpan
        (snake && startRow % 2 != 0)).find?
        (fun c => canFit occ startRow c rowSpan colSpan) with _ | c'
    · rw [hfind] at h
      exact ih h
    · rw [hfind] at h
      injection h with h2
      injection h2 with hr hc'
      subst hr
      subst hc'
      have h3 := List.find?_some hfind
      simp only [decide_eq_true_eq] at h3
      exact ⟨h3, _, List.mem_of_find?_eq_some hfind⟩

lemma findSpot_isSome {occ : Finset (ℕ × ℕ)} {columns colSpan rowSpan : ℕ}
    {snake : Bool} (hc : 1 ≤ columns) (R : ℕ)
    (hocc : ∀ p ∈ occ, p.1 < R) :
    ∀ fuel startRow, startRow ≤ R → R < startRow + fuel →
      (findSpot occ columns colSpan rowSpan snake fuel startRow).isSome := by
  intro fuel
  induction fuel with
  | zero => omega
  | succ fuel ih =>
    intro startRow h1 h2
    rw [findSpot]
    rcases hfind : (candCols columns colSpan (snake && startRow % 2 != 0)).find?
        (fun c => canFit occ startRow c rowSpan colSpan) with _ | c'
    · have hne : startRow ≠ R := by
        intro hR
        subst hR
        obtain ⟨c₀, hc₀⟩ : ∃ c₀, c₀ ∈ candCols columns colSpan
            (snake && startRow % 2 != 0) := by
          rcases hl : candCols columns colSpan (snake && startRow % 2 != 0)
            with _ | ⟨x, xs⟩
          · exact absurd hl (candCols_ne_nil _ _ _ hc)
          · exact ⟨x, List.mem_cons_self _ _⟩
        have hfit : canFit occ startRow c₀ rowSpan colSpan = true := by
          simp only [canFit, decide_eq_true_eq]
          intro p hp hpo
          rw [mem_blockCells] at hp
          obtain ⟨ro, _, co, _, rfl⟩ := hp
          have h5 := hocc _ hpo
          dsimp only at h5
          omega
        have := List.find?_eq_none.mp hfind c₀ hc₀
        simp [hfit] at this
      exact ih (startRow + 1) (by omega) (by omega)
    · rfl

/-- The loop invariant of the spanning placer: the occupancy grid is
exactly the union of the placed blocks, the blocks are pairwise
disjoint, and every placement has positive spans, a start column
inside the grid, and rows below `maxRowUsed`. -/
def SpanInv (columns : ℕ) (st : SpanState) : Prop :=
  st.occupancyGrid =
      st.placedItems.foldr (fun p acc => p.block ∪ acc) ∅ ∧
    st.placedItems.Pairwise (fun p q => Disjoint p.block q.block) ∧
    ∀ p ∈ st.placedItems,
      1 ≤ p.rowSpan ∧ 1 ≤ p.colSpan ∧ p.col < columns ∧
        p.row + p.rowSpan ≤ st.maxRowUsed + 1

lemma foldr_union_eq (l : List PlacedItem) (A : Finset (ℕ × ℕ)) :
    l.foldr (fun p acc => p.block ∪ acc) A =
      l.foldr (fun p acc => p.block ∪ acc) ∅ ∪ A := by
  induction l with
  | nil => simp
  | cons x xs ih => simp [List.foldr_cons, ih, Finset.union_assoc]

lemma block_subset_foldr {p : PlacedItem} {l : List PlacedItem}
    (hp : p ∈ l) :
    p.block ⊆ l.foldr (fun q acc => q.block ∪ acc) ∅ := by
  induction l with
  | nil => simp at hp
  | cons x xs ih =>
    rcases List.mem_cons.mp hp with h | h
    · subst h
      simp [List.foldr_cons, Finset.subset_union_left]
    · simp only [List.foldr_cons]
      exact (ih h).trans Finset.subset_union_right

lemma placeStep_spec {columns : ℕ} (hc : 1 ≤ columns) (snake useFixed : Bool)
    (fw fh : ℚ) (st : SpanState) (child : Item) :
    ∃ r c,
      placeStep columns snake useFixed fw fh st child =
        { occupancyGrid := st.occupancyGrid ∪
            blockCells r c (spanOr1 child.rowSpan)
              (min (spanOr1 child.colSpan) columns)
          placedItems := st.placedItems ++
            [⟨child, r, c, spanOr1 child.rowSpan,
              min (spanOr1 child.colSpan) columns,
              (if useFixed then fw else child.width),
              (if useFixed then fh else child.height)⟩]
          maxRowUsed := max st.maxRowUsed
            (r + spanOr1 child.rowSpan - 1) } ∧
        canFit st.occupancyGrid r c (spanOr1 child.rowSpan)
            (min (spanOr1 child.colSpan) columns) = true ∧
        c < columns := by
  have hsome := @findSpot_isSome st.occupancyGrid columns
    (min (spanOr1 child.colSpan) columns)
    (spanOr1 child.rowSpan) snake hc
    (st.occupancyGrid.sup Prod.fst + 1)
    (fun p hp => by
      have := Finset.le_sup (f := Prod.fst) hp
      omega)
    (st.occupancyGrid.sup Prod.fst + 2) 0 (by omega) (by omega)
  rcases hres : findSpot st.occupancyGrid columns
      (min (spanOr1 child.colSpan) columns) (spanOr1 child.rowSpan) snake
      (st.occupancyGrid.sup Prod.fst + 2) 0 with _ | ⟨r, c⟩
  · rw [hres] at hsome
    simp at hsome
  · obtain ⟨hfit, b, hmem⟩ := findSpot_eq_some hres
    refine ⟨r, c, ?_, hfit, ?_⟩
    · simp only [placeStep, hres]
    · exact candCols_lt columns _ b
        (le_min (one_le_spanOr1 _) hc) hc c hmem

lemma placeStep_inv {columns : ℕ} (hc : 1 ≤ columns) (snake useFixed : Bool)
    (fw fh : ℚ) (st : SpanState) (child : Item)
    (h : SpanInv columns st) :
    SpanInv columns (placeStep columns snake useFixed fw fh st child) := by
  obtain ⟨r, c, heq, hfit, hcol⟩ := placeStep_spec hc snake useFixed fw fh st child
  obtain ⟨hocc, hpw, hbnd⟩ := h
  rw [heq]
  set pnew : PlacedItem := ⟨child, r, c, spanOr1 child.rowSpan,
    min (spanOr1 child.colSpan) columns,
    (if useFixed then fw else child.width),
    (if useFixed then fh else child.height)⟩ with hpnew
  have hdisj : ∀ q ∈ st.placedItems, Disjoint q.block pnew.block := by
    intro q hq
    rw [Finset.disjoint_right]
    intro a ha
    have hnot : a ∉ st.occupancyGrid := by
      simp only [canFit, decide_eq_true_eq] at hfit
      exact hfit a ha
    intro haq
    exact hnot (hocc ▸ block_subset_foldr hq haq)
  refine ⟨?_, ?_, ?_⟩
  · simp only [List.foldr_append, List.foldr_cons, List.foldr_nil]
    rw [foldr_union_eq, ← hocc]
    simp [PlacedItem.block]
  · rw [List.pairwise_append]
    refine ⟨hpw, List.pairwise_singleton _ _, ?_⟩
    intro q hq q' hq'
    rcases List.mem_singleton.mp hq' with rfl
    exact hdisj q hq
  · intro p hp
    rcases List.mem_append.mp hp with h | h
    · obtain ⟨h1, h2, h3, h4⟩ := hbnd p h
      refine ⟨h1, h2, h3, ?_⟩
      dsimp only
      omega
    · rcases List.mem_singleton.mp h with rfl
      refine ⟨one_le_spanOr1 _, le_min (one_le_spanOr1 _) hc, hcol, ?_⟩
      have h6 := one_le_spanOr1 child.rowSpan
      simp only [hpnew]
      omega

lemma spanning_foldl {columns : ℕ} (hc : 1 ≤ columns) (snake useFixed : Bool)
    (fw fh : ℚ) (items : List Item) (st : SpanState)
    (h : SpanInv columns st) :
    SpanInv columns
        (items.foldl (placeStep columns snake useFixed fw fh) st) ∧
      ∃ recs : List PlacedItem,
        (items.foldl (placeStep columns snake useFixed fw fh) st).placedItems =
            st.placedItems ++ recs ∧
          recs.length = items.length ∧
          ∀ (j : ℕ) (it : Item), items[j]? = some it → ∃ r c : ℕ,
            recs[j]? = some ⟨it, r, c, spanOr1 it.rowSpan,
              min (spanOr1 it.colSpan) columns,
              (if useFixed then fw else it.width),
              (if useFixed then fh else it.height)⟩ := by
  induction items generalizing st with
  | nil =>
    refine ⟨h, [], by simp, rfl, ?_⟩
    intro j it hj
    simp at hj
  | cons child rest ih =>
    simp only [List.foldl_cons]
    obtain ⟨r, c, heq, -, -⟩ := placeStep_spec hc snake useFixed fw fh st child
    have hinv' := placeStep_inv hc snake useFixed fw fh st child h
    obtain ⟨hinv'', recs, hplaced, hlen, hspec⟩ := ih _ hinv'
    refine ⟨hinv'', (⟨child, r, c, spanOr1 child.rowSpan,
      min (spanOr1 child.colSpan) columns,
      (if useFixed then fw else child.width),
      (if useFixed then fh else child.height)⟩ : PlacedItem) :: recs, ?_, ?_, ?_⟩
    · rw [hplaced, heq]
      simp
    · simp [hlen]
    · intro j it hj
      cases j with
      | zero =>
        simp only [List.getElem?_cons_zero] at hj ⊢
        cases hj
        exact ⟨r, c, rfl⟩
      | succ j =>
        simp only [List.getElem?_cons_succ] at hj ⊢
        exact hspec j it hj

lemma spanInv_init (columns : ℕ) : SpanInv columns ⟨∅, [], 0⟩ := by
  refine ⟨rfl, List.Pairwise.nil, ?_⟩
  intro p hp
  simp at hp

/-! ### C1 / C8 — spanning placer claims -/

unseal Rat.add Rat.mul Rat.sub Rat.inv in
/-- C1 (counterexample): with `columns = 3` and two items of
`colSpan = 2`, the second item is placed at start column 2 with
`colSpan = 2` (the `canFit` scan reads the out-of-range cell `(0,3)`
as free), so its block contains the cell `(0,3)`, which does *not* lie
within columns `[0, 3)` — the claimed in-bounds invariant fails. -/
theorem C1_counterexample :
    (spanningPlacedItems
        [{ width := 10, height := 10, colSpan := some 2 },
          { width := 10, height := 10, colSpan := some 2 }]
        { columns := some 3 })[1]? =
      some ⟨{ width := 10, height := 10, colSpan := some 2 }, 0, 2, 1, 2, 10, 10⟩ ∧
    (0, 3) ∈ blockCells 0 2 1 2 ∧ ¬(3 < 3) := by
  refine ⟨by decide, by decide, by decide⟩

/-- C1 (amended): for every item collection and options with
`columns ≥ 1`, the spanning placer's placed blocks are pairwise
disjoint (no two blocks overlap in any cell), every block lies within
the allocated rows `[0, totalRows)`, and every block *starts* at a
column inside `[0, columns)`.  (The original claim's stronger
"entirely within columns `[0, columns)`" is refuted by
`C1_counterexample`: a multi-column block placed near the right edge
may extend past the last column, because the fit check reads
out-of-range cells as free.) -/
theorem C1_spanning_no_overlap (components : List Item)
    (options : LayoutOptions) (hc : 1 ≤ options.columns.getD 3) :
    (spanningPlacedItems components options).Pairwise
        (fun p q => Disjoint p.block q.block) ∧
      ∀ p ∈ spanningPlacedItems components options,
        p.col < options.columns.getD 3 ∧
          p.row + p.rowSpan ≤ spanningTotalRows components options := by
  obtain ⟨⟨-, hpw, hbnd⟩, -⟩ :=
    spanning_foldl hc
      (flowIsExactSnake options.flowDirection)
      (decide (options.sizingMode = .fixed))
      (options.fixedWidth.getD 0) (options.fixedHeight.getD 0)
      components ⟨∅, [], 0⟩ (spanInv_init _)
  exact ⟨hpw, fun p hp => ⟨(hbnd p hp).2.2.1, (hbnd p hp).2.2.2⟩⟩

unseal Rat.add Rat.mul Rat.sub Rat.inv in
/-- Witness for `C1_spanning_no_overlap` at a concrete input. -/
theorem C1_spanning_no_overlap_witness :
    (1 ≤ (({ columns := some 3 } : LayoutOptions)).columns.getD 3) ∧
    ((spanningPlacedItems
          [{ width := 10, height := 10, colSpan := some 2 },
            { width := 10, height := 10 }] { columns := some 3 }).Pairwise
        (fun p q => Disjoint p.block q.block) ∧
      ∀ p ∈ spanningPlacedItems
          [{ width := 10, height := 10, colSpan := some 2 },
            { width := 10, height := 10 }] { columns := some 3 },
        p.col < ({ columns := some 3 } : LayoutOptions).columns.getD 3 ∧
          p.row + p.rowSpan ≤ spanningTotalRows
            [{ width := 10, height := 10, colSpan := some 2 },
              { width := 10, height := 10 }] { columns := some 3 }) :=
  ⟨by decide,
    C1_spanning_no_overlap
      [{ width := 10, height := 10, colSpan := some 2 },
        { width := 10, height := 10 }] { columns := some 3 } (by decide)⟩

/-- C8 (confirmed): in the spanning placer (columns ≥ 1), every item
is placed with effective `colSpan = min(item.colSpan, columns)` — a
`colSpan` exceeding `columns` is clamped to `columns` — and an item
without a `rowSpan`/`colSpan` field gets the corresponding span `1`. -/
theorem C8_effective_spans (components : List Item)
    (options : LayoutOptions) (hc : 1 ≤ options.columns.getD 3) (j : ℕ)
    (it : Item) (hit : components[j]? = some it) :
    ∃ p : PlacedItem,
      (spanningPlacedItems components options)[j]? = some p ∧
        p.component = it ∧
        (∀ v : ℕ, it.colSpan = some v → 1 ≤ v →
          p.colSpan = min v (options.columns.getD 3)) ∧
        (it.colSpan = none → p.colSpan = 1) ∧
        (∀ v : ℕ, it.rowSpan = some v → 1 ≤ v → p.rowSpan = v) ∧
        (it.rowSpan = none → p.rowSpan = 1) := by
  obtain ⟨-, recs, hplaced, -, hspec⟩ :=
    spanning_foldl hc
      (flowIsExactSnake options.flowDirection)
      (decide (options.sizingMode = .fixed))
      (options.fixedWidth.getD 0) (options.fixedHeight.getD 0)
      components ⟨∅, [], 0⟩ (spanInv_init _)
  obtain ⟨r, c, hrec⟩ := hspec j it hit
  refine ⟨⟨it, r, c, spanOr1 it.rowSpan,
    min (spanOr1 it.colSpan) (options.columns.getD 3),
    (if decide (options.sizingMode = .fixed) then options.fixedWidth.getD 0
      else it.width),
    (if decide (options.sizingMode = .fixed) then options.fixedHeight.getD 0
      else it.height)⟩, ?_, rfl, ?_, ?_, ?_, ?_⟩
  · show (spanningState components options).placedItems[j]? = _
    rw [show (spanningState components options).placedItems =
        [] ++ recs from hplaced]
    rw [List.nil_append]
    exact hrec
  · intro v hv hv1
    simp only [hv, spanOr1]
    rw [if_neg (by omega)]
  · intro hv
    simp only [hv, spanOr1]
    omega
  · intro v hv hv1
    simp only [hv, spanOr1]
    rw [if_neg (by omega)]
  · intro hv
    simp only [hv, spanOr1]

unseal Rat.add Rat.mul Rat.sub Rat.inv in
/-- Witness for `C8_effective_spans`: an item with `colSpan = 5`
in a 3-column grid is clamped to span 3. -/
theorem C8_effective_spans_witness :
    (1 ≤ (({ columns := some 3 } : LayoutOptions)).columns.getD 3) ∧
    ∃ p : PlacedItem,
      (spanningPlacedItems [{ width := 10, height := 10, colSpan := some 5 }]
          { columns := some 3 })[0]? = some p ∧
        p.component = { width := 10, height := 10, colSpan := some 5 } ∧
        (∀ v : ℕ,
          ({ width := 10, height := 10, colSpan := some 5 } : Item).colSpan =
              some v → 1 ≤ v →
            p.colSpan = min v ((({ columns := some 3 } :
              LayoutOptions)).columns.getD 3)) ∧
        (({ width := 10, height := 10, colSpan := some 5 } : Item).colSpan =
            none → p.colSpan = 1) ∧
        (∀ v : ℕ,
          ({ width := 10, height := 10, colSpan := some 5 } : Item).rowSpan =
              some v → 1 ≤ v → p.rowSpan = v) ∧
        (({ width := 10, height := 10, colSpan := some 5 } : Item).rowSpan =
            none → p.rowSpan = 1) :=
  ⟨by decide,
    C8_effective_spans [{ width := 10, height := 10, colSpan := some 5 }]
      { columns := some 3 } (by decide) 0
      { width := 10, height := 10, colSpan := some 5 } (by decide)⟩

/-! ### `_layoutPerimeterGrid` — budgeting (part_001 : 1417-1469) -/

/-- The four edges of the perimeter. -/
inductive Edge | top | right | bottom | left
deriving DecidableEq, Repr

/-- `budgets[k] = v` on a record modelled as a function. -/
def updateB (b : Edge → ℕ) (k : Edge) (v : ℕ) : Edge → ℕ :=
  fun e => if e = k then v else b e

/-- `forEach(k => { const take = Math.min(caps[k], remaining);
budgets[k] = take; remaining -= take; })`. -/
def seqFill (caps : Edge → ℕ) : List Edge → (Edge → ℕ) × ℕ → (Edge → ℕ) × ℕ
  | [], st => st
  | k :: ks, (b, remaining) =>
    let take := min (caps k) remaining
    seqFill caps ks (updateB b k take, remaining - take)

/-- `pool.forEach(k => { budgets[k] = Math.min(caps[k], perEdge +
(extra > 0 ? 1 : 0)); if (extra > 0) extra--; })`. -/
def equalFill (caps : Edge → ℕ) (perEdge : ℕ) :
    List Edge → ℕ → (Edge → ℕ) → Edge → ℕ
  | [], _, b => b
  | k :: ks, extra, b =>
    equalFill caps perEdge ks (if 0 < extra then extra - 1 else extra)
      (updateB b k (min (caps k) (perEdge + (if 0 < extra then 1 else 0))))

/-- Step 1 of `_layoutPerimeterGrid`: the effective row count
(`rows`, or derived from `columns` and the item count under
`autoRows`), floored at 2 when corners are excluded, else at 1. -/
def perimeterEffectiveRows (options : LayoutOptions) (N : ℕ) : ℕ :=
  let columns := options.columns.getD 4
  let rows := options.rows.getD 3
  let er :=
    if options.autoRows then
      let hSlots := if options.excludeCorners then (columns - 2) * 2
        else columns * 2
      let remaining := N - hSlots
      (remaining + 1) / 2 + 2
    else rows
  max (if options.excludeCorners then 2 else 1) er

/-- Step 2: per-edge capacities.  The priority edges get full length,
the secondary edges `length − 2`; `excludeCorners` removes another 2
from the priority edges (which own the corners).  All `Math.max(0, ·)`
are ℕ truncation. -/
def perimeterCaps (options : LayoutOptions) (N : ℕ) : Edge → ℕ :=
  let columns := options.columns.getD 4
  let effectiveRows := perimeterEffectiveRows options N
  let caps₀ : Edge → ℕ :=
    if options.priorityDirection = .rows then
      fun e =>
        match e with
        | .left | .right => effectiveRows
        | .top | .bottom => columns - 2
    else
      fun e =>
        match e with
        | .top | .bottom => columns
        | .left | .right => effectiveRows - 2
  if options.excludeCorners then
    if options.priorityDirection = .rows then
      updateB (updateB caps₀ .left (caps₀ .left - 2)) .right (caps₀ .right - 2)
    else
      updateB (updateB caps₀ .top (caps₀ .top - 2)) .bottom (caps₀ .bottom - 2)
  else caps₀

/-- Step 3: budget allocation across the four edges. -/
def perimeterBudgets (options : LayoutOptions) (N : ℕ) : Edge → ℕ :=
  let caps := perimeterCaps options N
  let primary : List Edge :=
    if options.priorityDirection = .rows then [.left, .right] else [.top, .bottom]
  let secondary : List Edge :=
    if options.priorityDirection = .rows then [.top, .bottom] else [.left, .right]
  let b0 : Edge → ℕ := fun _ => 0
  let totalPrimaryCap := primary.foldl (fun s k => s + caps k) 0
  if totalPrimaryCap ≤ N then
    let b1 := primary.foldl (fun b k => updateB b k (caps k)) b0
    let remaining := N - totalPrimaryCap
    let pool := secondary.filter (fun k => 0 < caps k)
    if options.equalDistribution ∧ pool ≠ [] then
      equalFill caps (remaining / pool.length) pool (remaining % pool.length) b1
    else
      (seqFill caps secondary (b1, remaining)).1
  else
    if options.equalDistribution then
      equalFill caps (N / primary.length) primary (N % primary.length) b0
    else
      (seqFill caps primary (b0, N)).1

/-! ### C3 — perimeter budgeting -/

set_option maxHeartbeats 1000000 in
/-- C3 (confirmed): for every `columns`, `rows` (or autoRows-derived
effective rows, both folded into `perimeterCaps`) and item count `N`,
and for every combination of `priorityDirection`, `excludeCorners` and
`equalDistribution`, the perimeter budget allocation produces four
per-edge budgets (naturals, hence non-negative), none exceeding its
edge's capacity, whose sum equals
`min (N, totalPerimeterCapacity)`. -/
theorem C3_perimeter_budgets (options : LayoutOptions) (N : ℕ) :
    perimeterBudgets options N .top ≤ perimeterCaps options N .top ∧
    perimeterBudgets options N .right ≤ perimeterCaps options N .right ∧
    perimeterBudgets options N .bottom ≤ perimeterCaps options N .bottom ∧
    perimeterBudgets options N .left ≤ perimeterCaps options N .left ∧
    perimeterBudgets options N .top + perimeterBudgets options N .right +
        perimeterBudgets options N .bottom + perimeterBudgets options N .left =
      min N (perimeterCaps options N .top + perimeterCaps options N .right +
        perimeterCaps options N .bottom + perimeterCaps options N .left) := by
  have hcap :
      (perimeterCaps options N .top = perimeterCaps options N .bottom ∧
        perimeterCaps options N .left = perimeterCaps options N .right) := by
    cases hpd : options.priorityDirection <;>
      cases hex : options.excludeCorners <;>
        simp [perimeterCaps, hpd, hex, updateB]
  obtain ⟨hTB, hLR⟩ := hcap
  cases hpd : options.priorityDirection
  case rows =>
    cases heq : options.equalDistribution <;>
      by_cases hs : 0 < perimeterCaps options N Edge.top <;>
      · simp only [perimeterBudgets, hpd, heq, seqFill, equalFill, updateB,
          List.foldl, List.filter, List.length_cons, List.length_nil, ← hTB,
          hs]
        split_ifs <;> simp_all [updateB] <;> omega
  case columns =>
    cases heq : options.equalDistribution <;>
      by_cases hs : 0 < perimeterCaps options N Edge.left <;>
      · simp only [perimeterBudgets, hpd, heq, seqFill, equalFill, updateB,
          List.foldl, List.filter, List.length_cons, List.length_nil, ← hLR,
          hs]
        split_ifs <;> simp_all [updateB] <;> omega

/-! ### `_layoutPerimeterGrid` — path building and placement
(part_001 : 1471-1578)

The JS `activeSlots` is a `Set` of slot object references; here it is a
`Finset` of slot values, which coincides whenever the loop contains no
duplicate slot (it can only contain duplicates for a single-row
perimeter, `effectiveRows = 1`, where the bottom pass re-walks the top
row).  `slots[i]` reads with a negative or out-of-range index add JS
`undefined` to the set, which can never match a real slot in the final
filter; they are modelled as skipped inserts. -/

/-- One slot of the canonical perimeter loop. -/
structure PathSlot where
  r : ℕ
  c : ℕ
  edge : Edge
  isCorner : Bool
deriving DecidableEq, Repr

/-- `Math.round` on a rational (round half up). -/
def mathRound (q : ℚ) : ℤ := ⌊q + 1 / 2⌋

/-- Step 3 of `_layoutPerimeterGrid`: the canonical clockwise loop —
top edge left→right, right edge top→bottom (no corners), bottom edge
right→left, left edge bottom→top (no corners) — with edge ownership
re-tagged when `priorityDirection = 'rows'`. -/
def perimeterLoop (columns effectiveRows : ℕ) (priorityRows : Bool) :
    List PathSlot :=
  let maxC := columns - 1
  let maxR := effectiveRows - 1
  let loop : List PathSlot :=
    ((List.range (maxC + 1)).map fun c =>
        ⟨0, c, .top, c == 0 || c == maxC⟩) ++
      ((List.range (maxR - 1)).map fun i => ⟨1 + i, maxC, .right, false⟩) ++
      ((List.range (maxC + 1)).map fun i =>
        ⟨maxR, maxC - i, .bottom, maxC - i == 0 || maxC - i == maxC⟩) ++
      ((List.range (maxR - 1)).map fun i => ⟨maxR - 1 - i, 0, .left, false⟩)
  if priorityRows then
    loop.map fun s =>
      let s := if s.c = 0 then { s with edge := .left } else s
      if s.c = maxC then { s with edge := .right } else s
  else loop

/-- The slots of one edge in loop order (`loop.filter(s => s.edge ===
name)`, minus corners when excluded). -/
def edgeSlots (loop : List PathSlot) (excludeCorners : Bool) (name : Edge) :
    List PathSlot :=
  let slots := loop.filter (fun s => s.edge = name)
  if excludeCorners then slots.filter (fun s => !s.isCorner) else slots

/-- `activeSlots.add(slots[i])` over a list of (possibly negative or
out-of-range) indices. -/
def addSlots (slots : List PathSlot) (idxs : List ℤ) : Finset PathSlot :=
  idxs.foldl
    (fun (acc : Finset PathSlot) (i : ℤ) =>
      if 0 ≤ i then
        match slots[i.toNat]? with
        | some s => insert s acc
        | none => acc
      else acc) ∅

/-- Step 4: the active slots of one edge under the overflow-alignment
policy. -/
def activeForEdge (alignment : OverflowAlign) (slots : List PathSlot)
    (budget : ℕ) : Finset PathSlot :=
  if budget = 0 then ∅
  else
    let count := slots.length
    if count = 0 then ∅
    else if alignment = .justifyCorners ∧ 1 < count ∧ 1 < budget then
      addSlots slots ((List.range budget).map fun i =>
        mathRound ((i : ℚ) * ((count : ℚ) - 1) / ((budget : ℚ) - 1)))
    else if alignment = .center then
      let start : ℤ := Int.fdiv ((count : ℤ) - (budget : ℤ)) 2
      addSlots slots ((List.range budget).map fun i => start + (i : ℤ))
    else if alignment = .endSide then
      addSlots slots ((List.range budget).map fun i =>
        (count : ℤ) - (budget : ℤ) + (i : ℤ))
    else
      addSlots slots ((List.range budget).map fun i => (i : ℤ))

/-- The union of the four edges' active slots. -/
def activeSlots (loop : List PathSlot) (excludeCorners : Bool)
    (budgets : Edge → ℕ) (alignment : OverflowAlign) : Finset PathSlot :=
  ([Edge.top, Edge.right, Edge.bottom, Edge.left]).foldl
    (fun acc name =>
      acc ∪ activeForEdge alignment (edgeSlots loop excludeCorners name)
        (budgets name)) ∅

/-- The `startIdx` corner test of step 5. -/
def cornerMatch (startCorner : Corner) (maxC maxR : ℕ) (s : PathSlot) : Bool :=
  match startCorner with
  | .topLeft => s.r == 0 && s.c == 0
  | .topRight => s.r == 0 && s.c == maxC
  | .bottomRight => s.r == maxR && s.c == maxC
  | .bottomLeft => s.r == maxR && s.c == 0

/-- Steps 3-5 combined: the reoriented loop filtered down to the
active slots. -/
def perimeterFinalPath (options : LayoutOptions) (N : ℕ) : List PathSlot :=
  let columns := options.columns.getD 4
  let effectiveRows := perimeterEffectiveRows options N
  let maxC := columns - 1
  let maxR := effectiveRows - 1
  let loop := perimeterLoop columns effectiveRows
    (options.priorityDirection = .rows)
  let active := activeSlots loop options.excludeCorners
    (perimeterBudgets options N) options.overflowAlignment
  let startIdx := loop.findIdx (cornerMatch options.startCorner maxC maxR)
  let path := loop.drop startIdx ++ loop.take startIdx
  let path :=
    if options.direction = .counterClockwise then
      match path with
      | [] => ([] : List PathSlot)
      | f :: rest => f :: rest.reverse
    else path
  path.filter (fun s => s ∈ active)

/-- `_layoutPerimeterGrid` (part_001 : 1395-1578).  `sqrtQ` models
`Math.sqrt`; `cosQ`/`sinQ` model `deg ↦ Math.cos/sin(toRad(deg))`
(the π/180 conversion is folded into the oracle).  The `zIndex` output
is not modelled (no such field on `Item`); the `scale.set` write is. -/
def _layoutPerimeterGrid (sqrtQ cosQ sinQ : ℚ → ℚ) (components : List Item)
    (options : LayoutOptions) : List Item × Bounds :=
  let columns := options.columns.getD 4
  let numComponents := components.length
  if numComponents = 0 ∨ columns = 0 then (components, zeroBounds) else
  let effectiveRows := perimeterEffectiveRows options numComponents
  let maxC := columns - 1
  let maxR := effectiveRows - 1
  let finalPath := perimeterFinalPath options numComponents
  let m := _calculateGridCellSize components options
  let gridWidth := (maxC : ℚ) * m.cellWidth + m.maxChildWidth
  let gridHeight := (maxR : ℚ) * m.cellHeight + m.maxChildHeight
  let cornerOffset := options.cornerOffset
  let place := fun (i : ℕ) (child : Item) =>
    match finalPath[i]? with
    | none => child
    | some slot =>
      let x0 := (slot.c : ℚ) * m.cellWidth + m.maxChildWidth / 2
      let y0 := (slot.r : ℚ) * m.cellHeight + m.maxChildHeight / 2
      let xy :=
        if cornerOffset ≠ 0 ∧ slot.isCorner then
          if slot.r = 0 ∧ slot.c = 0 then (x0 - cornerOffset, y0 - cornerOffset)
          else if slot.r = 0 ∧ slot.c = maxC then
            (x0 + cornerOffset, y0 - cornerOffset)
          else if slot.r = maxR ∧ slot.c = maxC then
            (x0 + cornerOffset, y0 + cornerOffset)
          else if slot.r = maxR ∧ slot.c = 0 then
            (x0 - cornerOffset, y0 + cornerOffset)
          else (x0, y0)
        else (x0, y0)
      let dx := xy.1 - gridWidth / 2
      let dy := xy.2 - gridHeight / 2
      let d :=
        if options.offset ≠ 0 then
          let dist := sqrtQ (dx * dx + dy * dy)
          if dist > 0 then
            (dx + dx / dist * options.offset, dy + dy / dist * options.offset)
          else (dx, dy)
        else (dx, dy)
      let cosRot := cosQ options.globalRotation
      let sinRot := sinQ options.globalRotation
      let child :=
        { child with
          pos := P2.mk (d.1 * cosRot - d.2 * sinRot)
            ((d.1 * sinRot + d.2 * cosRot) * options.perspectiveY) }
      if options.enableZIndex ∨ options.depthScale ≠ 0 then
        let halfH := gridHeight / 2
        let depthFactor := child.pos.y / (if halfH = 0 then 1 else halfH)
        if options.depthScale ≠ 0 ∧ child.scaleX.isSome then
          { child with scaleX := some (max (1 / 10) (1 + depthFactor * options.depthScale)) }
        else child
      else child
  let updated := forEachIdx place components
  (updated, _calculateBoundsFromComponents updated options)

/-! ### `_layoutSquareDiamondFill` (part_001 : 2798-2840) -/

/-- The diamond-shaped list of valid cells: per row, a span that
shrinks linearly from the full width at the vertical center to one
cell at the edges, centered and clipped to the grid. -/
def diamondValidPositions (components : List Item) (options : LayoutOptions) :
    List (ℕ × ℕ) :=
  let columns := options.columns.getD 5
  let totalRows := ceilDiv components.length columns
  let centerX : ℚ := ((columns : ℚ) - 1) / 2
  let centerY : ℚ := ((totalRows : ℚ) - 1) / 2
  (List.range totalRows).flatMap fun r =>
    let verticalProgress : ℚ :=
      if centerY > 0 then |((r : ℚ) - centerY)| / centerY else 0
    let diamondWidth := max 1 ((columns : ℚ) * (1 - verticalProgress))
    let startCol : ℤ := ⌈centerX - diamondWidth / 2⌉
    let endCol : ℤ := ⌊centerX + diamondWidth / 2⌋
    ((List.range (endCol + 1 - startCol).toNat).map fun i =>
        startCol + (i : ℤ)).filterMap fun c =>
      if 0 ≤ c ∧ c < (columns : ℤ) then some (r, c.toNat) else none

/-- `_layoutSquareDiamondFill`: items beyond the valid-cell count are
left in place and, when they expose a visibility flag, hidden. -/
def _layoutSquareDiamondFill (components : List Item)
    (options : LayoutOptions) : List Item × Bounds :=
  let columns := options.columns.getD 5
  if components = [] then (components, zeroBounds) else
  let m := _calculateGridCellSize components options
  let totalRows := ceilDiv components.length columns
  let validPositions := diamondValidPositions components options
  let place := fun (i : ℕ) (child : Item) =>
    match validPositions[i]? with
    | some pos =>
      { child with pos :=
          ⟨(pos.2 : ℚ) * m.cellWidth + m.maxChildWidth / 2,
            (pos.1 : ℚ) * m.cellHeight + m.maxChildHeight / 2⟩ }
    | none =>
      if child.visible.isSome then { child with visible := some false }
      else child
  let updated := forEachIdx place components
  (updated,
    ⟨0, 0, (columns : ℚ) * m.cellWidth - m.columnGap,
      (totalRows : ℚ) * m.cellHeight - m.rowGap⟩)

/-! ### C7 — finite-capacity overflow -/

unseal Rat.add Rat.mul Rat.sub Rat.inv in
/-- C7 (counterexample): perimeter grid, `columns = 4, rows = 3`
(total budget 10) with 11 items that all expose `visible = true`: the
11th item is left at its prior position but its visibility flag is
*not* set to not-visible — it stays `true`, contradicting the claim
that every finite strategy hides its overflow items. -/
theorem C7_counterexample :
    ((_layoutPerimeterGrid (fun _ => 0) (fun _ => 0) (fun _ => 0)
          (List.replicate 11
            { width := 10, height := 10, visible := some true,
              pos := ⟨7, 8⟩ })
          { columns := some 4, rows := some 3 }).1)[10]? =
        some { width := 10, height := 10, visible := some true,
               pos := ⟨7, 8⟩ } ∧
      some true ≠ some false := by
  constructor
  · decide
  · decide

/-- C7 (amended): items at or beyond a finite strategy's capacity are
left at their prior position; the *diamond-fill* strategy additionally
sets an exposed visibility flag to not-visible, while the *perimeter
grid* leaves overflow items entirely untouched (position, visibility
and scale unchanged) — it does not hide them. -/
theorem C7_finite_capacity_overflow (sq cq sn : ℚ → ℚ)
    (components : List Item) (options : LayoutOptions) (i : ℕ) (it : Item)
    (hit : components[i]? = some it) :
    ((diamondValidPositions components options).length ≤ i →
      ((_layoutSquareDiamondFill components options).1)[i]? =
        some (if it.visible.isSome then { it with visible := some false }
          else it)) ∧
    ((perimeterFinalPath options components.length).length ≤ i →
      ((_layoutPerimeterGrid sq cq sn components options).1)[i]? =
        some it) := by
  constructor
  · intro hlen
    have hne : components ≠ [] := by
      intro h
      subst h
      simp at hit
    simp only [_layoutSquareDiamondFill, if_neg hne]
    rw [getElem?_forEachIdx, hit]
    rw [List.getElem?_eq_none hlen]
    rfl
  · intro hlen
    by_cases hg : components.length = 0 ∨ options.columns.getD 4 = 0
    · simp only [_layoutPerimeterGrid, if_pos hg]
      exact hit
    · simp only [_layoutPerimeterGrid, if_neg hg]
      rw [getElem?_forEachIdx, hit]
      rw [List.getElem?_eq_none hlen]
      rfl

unseal Rat.add Rat.mul Rat.sub Rat.inv in
/-- Witness for `C7_finite_capacity_overflow`: 7 items, 3 columns,
`rows = 2`; the 7th item exceeds both the diamond's 5 valid cells and
the perimeter's budget of 6. -/
theorem C7_finite_capacity_overflow_witness :
    ((List.replicate 7
        ({ width := 10, height := 10, visible := some true } : Item))[6]? =
      some ({ width := 10, height := 10, visible := some true } : Item)) ∧
    ((_layoutSquareDiamondFill
        (List.replicate 7 { width := 10, height := 10, visible := some true })
        { columns := some 3, rows := some 2 }).1)[6]? =
      some { width := 10, height := 10, visible := some false } ∧
    ((_layoutPerimeterGrid (fun _ => 0) (fun _ => 0) (fun _ => 0)
        (List.replicate 7 { width := 10, height := 10, visible := some true })
        { columns := some 3, rows := some 2 }).1)[6]? =
      some { width := 10, height := 10, visible := some true } := by
  have h := C7_finite_capacity_overflow (fun _ => 0) (fun _ => 0) (fun _ => 0)
    (List.replicate 7 { width := 10, height := 10, visible := some true })
    { columns := some 3, rows := some 2 } 6
    { width := 10, height := 10, visible := some true } (by decide)
  exact ⟨by decide, by simpa using h.1 (by decide), by simpa using h.2 (by decide)⟩

/-! ### `_layoutSquareCornerConverge` (part_001 : 2734-2791) -/

/-- One shell's four open corner-to-corner legs, in the order
`[pathTL, pathTR, pathBR, pathBL]`; each full edge run loses its last
element (`pop()`). -/
def ringPaths (minR maxR minC maxC : ℕ) : List (List (ℕ × ℕ)) :=
  let pathTL :=
    ((List.range (maxC - minC + 1)).map fun i => (minR, minC + i)).dropLast
  let pathTR :=
    ((List.range (maxR - minR + 1)).map fun i => (minR + i, maxC)).dropLast
  let pathBR :=
    ((List.range (maxC - minC + 1)).map fun i => (maxR, maxC - i)).dropLast
  let pathBL :=
    ((List.range (maxR - minR + 1)).map fun i => (maxR - i, minC)).dropLast
  [pathTL, pathTR, pathBR, pathBL]

/-- The round-robin interleaving: `for i < maxPathLength, for each
path, if i < path.length push path[i]`. -/
def rrJoin (ls : List (List (ℕ × ℕ))) : List (ℕ × ℕ) :=
  let maxPathLength := (ls.map List.length).foldr max 0
  (List.range maxPathLength).flatMap fun i => ls.filterMap fun p => p[i]?

/-- The shell-peeling `while` loop.  `fuel` is structural; the caller
passes `totalRows + 1`, which `genShells`' bound-shrinking makes
sufficient (`minR` grows and `maxR` shrinks each round). -/
def genShells : ℕ → ℕ → ℕ → ℕ → ℕ → ℕ → List (ℕ × ℕ)
  | 0, _, _, _, _, _ => []
  | fuel + 1, remaining, minR, maxR, minC, maxC =>
    if 0 < remaining ∧ minR ≤ maxR ∧ minC ≤ maxC then
      let ring := rrJoin (ringPaths minR maxR minC maxC)
      ring ++ genShells fuel (remaining - ring.length)
        (minR + 1) (maxR - 1) (minC + 1) (maxC - 1)
    else []

/-- The `finalPositions` sequence of the corner-converge strategy. -/
def cornerConvergePositions (components : List Item)
    (options : LayoutOptions) : List (ℕ × ℕ) :=
  let columns := options.columns.getD 5
  let totalRows := ceilDiv components.length columns
  genShells (totalRows + 1) components.length 0 (totalRows - 1) 0 (columns - 1)

/-- `_layoutSquareCornerConverge`: place items along the interleaved
shell positions; items beyond the generated positions are skipped. -/
def _layoutSquareCornerConverge (components : List Item)
    (options : LayoutOptions) : List Item × Bounds :=
  let columns := options.columns.getD 5
  if components = [] then (components, zeroBounds) else
  let m := _calculateGridCellSize components options
  let totalRows := ceilDiv components.length columns
  let finalPositions := cornerConvergePositions components options
  let place := fun (i : ℕ) (child : Item) =>
    match finalPositions[i]? with
    | some pos =>
      { child with pos :=
          ⟨(pos.2 : ℚ) * m.cellWidth + m.maxChildWidth / 2,
            (pos.1 : ℚ) * m.cellHeight + m.maxChildHeight / 2⟩ }
    | none => child
  (forEachIdx place components,
    ⟨0, 0, (columns : ℚ) * m.cellWidth - m.columnGap,
      (totalRows : ℚ) * m.cellHeight - m.rowGap⟩)

/-! ### Corner-converge: the interleaving is a permutation of the
four legs' concatenation -/

lemma dropLast_map_range {α : Type} (f : ℕ → α) (n : ℕ) :
    ((List.range (n + 1)).map f).dropLast = (List.range n).map f := by
  rw [List.dropLast_eq_take]
  rw [List.length_map, List.length_range]
  rw [← List.map_take, List.take_range]
  rw [show (n + 1 - 1) ⊓ (n + 1) = n by omega]

lemma heads_tails_perm {α : Type} (ls : List (List α)) :
    (ls.filterMap List.head? ++ (ls.map List.tail).flatten).Perm ls.flatten := by
  induction ls with
  | nil => simp
  | cons l rest ih =>
    cases l with
    | nil => simpa using ih
    | cons a t =>
      simp only [List.filterMap_cons, List.head?_cons, List.map_cons,
        List.tail_cons, List.flatten_cons, List.cons_append]
      refine List.Perm.cons a ?_
      exact (List.perm_append_comm_assoc _ _ _).trans
        (List.Perm.append_left t ih)

lemma rr_aux {α : Type} :
    ∀ (n : ℕ) (ls : List (List α)), (∀ l ∈ ls, l.length ≤ n) →
      ((List.range n).flatMap fun i => ls.filterMap fun p => p[i]?).Perm
        ls.flatten := by
  intro n
  induction n with
  | zero =>
    intro ls h
    have : ls.flatten = [] := by
      rw [List.flatten_eq_nil_iff]
      intro l hl
      have := h l hl
      exact List.eq_nil_of_length_eq_zero (by omega)
    simp [this]
  | succ n ih =>
    intro ls h
    rw [List.range_succ_eq_map, List.flatMap_cons]
    have h1 : (List.map Nat.succ (List.range n)).flatMap
          (fun i => ls.filterMap fun p => p[i]?) =
        (List.range n).flatMap fun i =>
          (ls.map List.tail).filterMap fun p => p[i]? := by
      rw [List.flatMap_map]
      congr 1
      funext i
      show (ls.filterMap fun p => p[i + 1]?) =
        (ls.map List.tail).filterMap fun p => p[i]?
      rw [List.filterMap_map]
      congr 1
      funext p
      simp [List.getElem?_tail]
    rw [h1]
    have h2 : (ls.filterMap fun p => p[0]?) = ls.filterMap List.head? := by
      congr 1
      funext p
      cases p <;> simp
    rw [h2]
    have h3 := ih (ls.map List.tail) (by
      intro l hl
      rw [List.mem_map] at hl
      obtain ⟨l', hl', rfl⟩ := hl
      have := h l' hl'
      cases l' <;> simp_all <;> omega)
    exact (List.Perm.append_left _ h3).trans (heads_tails_perm ls)

lemma foldr_max_le_of_mem {l : List (List (ℕ × ℕ))} {x : List (ℕ × ℕ)}
    (hx : x ∈ l) : x.length ≤ (l.map List.length).foldr max 0 := by
  induction l with
  | nil => simp at hx
  | cons y ys ih =>
    simp only [List.map_cons, List.foldr_cons]
    rcases List.mem_cons.mp hx with rfl | h
    · exact le_max_left _ _
    · exact le_trans (ih h) (le_max_right _ _)

/-- The round-robin interleave of the four legs is a permutation of
their concatenation. -/
lemma rrJoin_perm (ls : List (List (ℕ × ℕ))) : (rrJoin ls).Perm ls.flatten := by
  exact rr_aux _ ls (fun l hl => foldr_max_le_of_mem hl)

lemma ringPaths_flatten (minR maxR minC maxC : ℕ) :
    (ringPaths minR maxR minC maxC).flatten =
      ((List.range (maxC - minC)).map fun i => ((minR, minC + i) : ℕ × ℕ)) ++
        ((List.range (maxR - minR)).map fun i => ((minR + i, maxC) : ℕ × ℕ)) ++
        ((List.range (maxC - minC)).map fun i => ((maxR, maxC - i) : ℕ × ℕ)) ++
        ((List.range (maxR - minR)).map fun i => ((maxR - i, minC) : ℕ × ℕ)) := by
  simp only [ringPaths, dropLast_map_range]
  simp [List.append_assoc]

lemma mem_ringJoin {minR maxR minC maxC : ℕ} (h1 : minR ≤ maxR)
    (h2 : minC ≤ maxC) (x y : ℕ) :
    (x, y) ∈ rrJoin (ringPaths minR maxR minC maxC) ↔
      ((x = minR ∧ minC ≤ y ∧ y < maxC) ∨
        (y = maxC ∧ minR ≤ x ∧ x < maxR) ∨
        (x = maxR ∧ minC < y ∧ y ≤ maxC) ∨
        (y = minC ∧ minR < x ∧ x ≤ maxR)) := by
  rw [(rrJoin_perm _).mem_iff, ringPaths_flatten]
  simp only [List.mem_append, List.mem_map, List.mem_range, Prod.mk.injEq]
  constructor
  · rintro (((⟨i, hi, rfl, rfl⟩ | ⟨i, hi, rfl, rfl⟩) | ⟨i, hi, rfl, rfl⟩) |
      ⟨i, hi, rfl, rfl⟩) <;> omega
  · rintro (⟨rfl, hy1, hy2⟩ | ⟨rfl, hx1, hx2⟩ | ⟨rfl, hy1, hy2⟩ | ⟨rfl, hx1, hx2⟩)
    · exact Or.inl (Or.inl (Or.inl ⟨y - minC, by omega, rfl, by omega⟩))
    · exact Or.inl (Or.inl (Or.inr ⟨x - minR, by omega, by omega, rfl⟩))
    · exact Or.inl (Or.inr ⟨maxC - y, by omega, rfl, by omega⟩)
    · exact Or.inr ⟨maxR - x, by omega, by omega, rfl⟩

lemma nodup_ringJoin {minR maxR minC maxC : ℕ}
    (hA : minR < maxR ∨ maxC ≤ minC + 1)
    (hB : minC < maxC ∨ maxR ≤ minR + 1) :
    (rrJoin (ringPaths minR maxR minC maxC)).Nodup := by
  rw [(rrJoin_perm _).nodup_iff, ringPaths_flatten]
  have hmap : ∀ (f : ℕ → ℕ × ℕ) (n : ℕ),
      (∀ i j, i < n → j < n → f i = f j → i = j) →
        ((List.range n).map f).Nodup := by
    intro f n hf
    exact (List.nodup_range n).map_on
      (fun i hi j hj hij => hf i j (List.mem_range.mp hi)
        (List.mem_range.mp hj) hij)
  rw [List.nodup_append, List.nodup_append, List.nodup_append]
  simp only [List.disjoint_append_left, List.disjoint_append_right]
  repeat' apply And.intro
  all_goals first
    | exact hmap _ _ (fun i j hi hj h => by
        simp only [Prod.mk.injEq] at h
        omega)
    | (intro a ha hb
       simp only [List.mem_map, List.mem_range] at ha hb
       obtain ⟨i, hi, hieq⟩ := ha
       obtain ⟨j, hj, hjeq⟩ := hb
       rw [← hjeq] at hieq
       simp only [Prod.mk.injEq] at hieq
       omega)

lemma length_ringJoin (minR maxR minC maxC : ℕ) :
    (rrJoin (ringPaths minR maxR minC maxC)).length =
      2 * (maxC - minC) + 2 * (maxR - minR) := by
  rw [(rrJoin_perm _).length_eq, ringPaths_flatten]
  simp only [List.length_append, List.length_map, List.length_range]
  omega

set_option maxHeartbeats 1600000 in
/-- Shell-peeling coverage: when the smaller grid dimension is even,
or the two dimensions differ by exactly one, the generated shells
visit every cell of the `H × W` rectangle anchored at
`(minR, minC)` exactly once. -/
lemma genShells_spec :
    ∀ (fuel H W minR minC : ℕ), 1 ≤ H → 1 ≤ W → H ≤ 2 * fuel →
      (min H W % 2 = 0 ∨ H + 1 = W ∨ W + 1 = H) →
      (genShells fuel (H * W) minR (minR + H - 1) minC
          (minC + W - 1)).Nodup ∧
        ∀ x y : ℕ,
          ((x, y) ∈ genShells fuel (H * W) minR (minR + H - 1) minC
              (minC + W - 1) ↔
            (minR ≤ x ∧ x < minR + H ∧ minC ≤ y ∧ y < minC + W)) := by
  intro fuel
  induction fuel with
  | zero =>
    intro H W minR minC h1 h2 h3 hcond
    omega
  | succ fuel ih =>
    intro H W minR minC h1 h2 h3 hcond
    have hguard : 0 < H * W ∧ minR ≤ minR + H - 1 ∧ minC ≤ minC + W - 1 :=
      ⟨Nat.mul_pos (by omega) (by omega), by omega, by omega⟩
    simp only [genShells]
    rw [if_pos hguard]
    have hlen := length_ringJoin minR (minR + H - 1) minC (minC + W - 1)
    have hW1 : minC + W - 1 - minC = W - 1 := by omega
    have hH1 : minR + H - 1 - minR = H - 1 := by omega
    rw [hW1, hH1] at hlen
    by_cases hbig : 3 ≤ H ∧ 3 ≤ W
    · have key : H * W = (H - 2) * (W - 2) + (2 * (W - 1) + 2 * (H - 1)) := by
        zify [show (2 : ℕ) ≤ H from by omega, show (2 : ℕ) ≤ W from by omega,
          show (1 : ℕ) ≤ H from by omega, show (1 : ℕ) ≤ W from by omega]
        ring
      have hrem : H * W -
          (rrJoin (ringPaths minR (minR + H - 1) minC
            (minC + W - 1))).length = (H - 2) * (W - 2) := by
        rw [hlen]
        omega
      obtain ⟨ihn, ihm⟩ := ih (H - 2) (W - 2) (minR + 1) (minC + 1)
        (by omega) (by omega) (by omega) (by omega)
      have e1 : minR + H - 1 - 1 = minR + 1 + (H - 2) - 1 := by omega
      have e2 : minC + W - 1 - 1 = minC + 1 + (W - 2) - 1 := by omega
      rw [hrem, e1, e2]
      constructor
      · rw [List.nodup_append]
        refine ⟨nodup_ringJoin (by omega) (by omega), ihn, ?_⟩
        intro a ha hb
        obtain ⟨x, y⟩ := a
        rw [mem_ringJoin (by omega) (by omega)] at ha
        rw [ihm x y] at hb
        omega
      · intro x y
        rw [List.mem_append, mem_ringJoin (by omega) (by omega), ihm x y]
        omega
    · have hshape : H = 1 ∨ H = 2 ∨ W = 1 ∨ W = 2 := by omega
      have hrem0 : H * W -
          (rrJoin (ringPaths minR (minR + H - 1) minC
            (minC + W - 1))).length = 0 := by
        rw [hlen]
        rcases hshape with rfl | rfl | rfl | rfl <;> omega
      have hinner : genShells fuel 0 (minR + 1) (minR + H - 1 - 1)
          (minC + 1) (minC + W - 1 - 1) = [] := by
        cases fuel with
        | zero => rfl
        | succ f =>
          simp only [genShells]
          rw [if_neg]
          simp
      rw [hrem0, hinner, List.append_nil]
      constructor
      · refine nodup_ringJoin ?_ ?_ <;> omega
      · intro x y
        rw [mem_ringJoin (by omega) (by omega)]
        omega

/-- **C5** (counterexample).  With 9 items and `columns = 3` the grid is
3 × 3 (`totalRows = 3`), yet the corner-converge shells never visit the
interior cell `(1, 1)`: for an odd × odd square the innermost 1 × 1 ring
consists of four one-element legs that each lose their element to the
trailing-corner `pop()`, so the center cell is missed. -/
theorem C5_counterexample :
    1 < ceilDiv (List.replicate 9 ({} : Item)).length
        (({ columns := some 3 } : LayoutOptions).columns.getD 5) ∧
      1 < ({ columns := some 3 } : LayoutOptions).columns.getD 5 ∧
      (1, 1) ∉ cornerConvergePositions (List.replicate 9 ({} : Item))
        { columns := some 3 } := by
  decide

/-- **C5** (amended).  When the item count fills the grid exactly
(`N = totalRows * columns`) and either the smaller grid dimension is
even or the two dimensions differ by exactly one, the corner-converge
shell generation visits every cell of the `totalRows × columns` grid
exactly once: the generated position list has no duplicates, and a cell
appears in it iff it lies inside the grid. -/
theorem C5_corner_converge_coverage (components : List Item)
    (options : LayoutOptions) (R C : ℕ)
    (hCdef : C = options.columns.getD 5)
    (hRdef : R = ceilDiv components.length C)
    (hC : 1 ≤ C) (hR : 1 ≤ R)
    (hlen : components.length = R * C)
    (hshape : min R C % 2 = 0 ∨ R + 1 = C ∨ C + 1 = R) :
    (cornerConvergePositions components options).Nodup ∧
      ∀ x y : ℕ,
        ((x, y) ∈ cornerConvergePositions components options ↔
          x < R ∧ y < C) := by
  obtain ⟨hn, hm⟩ := genShells_spec (R + 1) R C 0 0 hR hC (by omega) hshape
  simp only [Nat.zero_add] at hn hm
  have hpos : cornerConvergePositions components options =
      genShells (R + 1) (R * C) 0 (R - 1) 0 (C - 1) := by
    show genShells (ceilDiv components.length (options.columns.getD 5) + 1)
        components.length 0
        (ceilDiv components.length (options.columns.getD 5) - 1) 0
        (options.columns.getD 5 - 1) = _
    rw [← hCdef, ← hRdef, hlen]
  rw [hpos]
  refine ⟨hn, fun x y => ?_⟩
  rw [hm x y]
  omega

/-- Witness for `C5_corner_converge_coverage`: a 3 × 4 grid (12 items,
4 columns) is covered without duplicates, and in particular the
interior cell `(1, 1)` is reached. -/
theorem C5_corner_converge_coverage_witness :
    (cornerConvergePositions (List.replicate 12 ({} : Item))
        { columns := some 4 }).Nodup ∧
      (1, 1) ∈ cornerConvergePositions (List.replicate 12 ({} : Item))
        { columns := some 4 } := by
  have h := C5_corner_converge_coverage (List.replicate 12 ({} : Item))
    { columns := some 4 } 3 4 (by decide) (by decide) (by decide)
    (by decide) (by decide) (by decide)
  exact ⟨h.1, (h.2 1 1).mpr (by decide)⟩

/-! ### C6 — empty / degenerate-input policy -/

unseal Rat.add Rat.mul Rat.sub Rat.inv in
/-- **C6** (counterexample).  The simple grid strategy does *not* guard
`columns = 0`: with `columns := some 0` and one item parked at
`(99, 99)`, the strategy still overwrites the item's position (the
source computes `i % columns` and `i / columns` with no guard; only
the perimeter strategy checks `columns <= 0`). -/
theorem C6_counterexample :
    ({ columns := some 0 } : LayoutOptions).columns.getD 3 = 0 ∧
      (_layoutSquareSimple 0
            [{ width := 2, height := 2, pos := ⟨99, 99⟩ }]
            { columns := some 0 }).1.map Item.pos ≠ [⟨99, 99⟩] := by
  constructor
  · decide
  · decide

/-- **C6** (amended).  An empty item collection is a no-op returning
the zero bounding box for every embedded strategy (simple, spanning,
perimeter, corner-converge, diamond-fill); the `columns <= 0` guard,
however, exists only in the perimeter strategy, which returns the
items untouched with zero bounds in that case. -/
theorem C6_empty_noop (sqrt3 : ℚ) (sqrtQ cosQ sinQ : ℚ → ℚ)
    (options : LayoutOptions) (components : List Item) :
    _layoutSquareSimple sqrt3 [] options = ([], zeroBounds) ∧
      _layoutSquareWithSpanning [] options = ([], zeroBounds) ∧
      _layoutPerimeterGrid sqrtQ cosQ sinQ [] options = ([], zeroBounds) ∧
      _layoutSquareCornerConverge [] options = ([], zeroBounds) ∧
      _layoutSquareDiamondFill [] options = ([], zeroBounds) ∧
      (options.columns.getD 4 = 0 →
        _layoutPerimeterGrid sqrtQ cosQ sinQ components options =
          (components, zeroBounds)) := by
  refine ⟨?_, ?_, ?_, ?_, ?_, ?_⟩
  · simp [_layoutSquareSimple]
  · simp [_layoutSquareWithSpanning]
  · simp [_layoutPerimeterGrid]
  · simp [_layoutSquareCornerConverge]
  · simp [_layoutSquareDiamondFill]
  · intro h
    have hg : components.length = 0 ∨ options.columns.getD 4 = 0 := Or.inr h
    simp only [_layoutPerimeterGrid, if_pos hg]

/-- Witness for `C6_empty_noop`: the perimeter strategy with
`columns := some 0` leaves a nonempty item list untouched. -/
theorem C6_empty_noop_witness :
    _layoutPerimeterGrid (fun _ => 0) (fun _ => 0) (fun _ => 0)
        [{ pos := ⟨99, 99⟩ }] { columns := some 0 } =
      ([{ pos := ⟨99, 99⟩ }], zeroBounds) :=
  (C6_empty_noop 0 (fun _ => 0) (fun _ => 0) (fun _ => 0)
      { columns := some 0 } [{ pos := ⟨99, 99⟩ }]).2.2.2.2.2 (by decide)

/-! ### `_layoutSquareHilbertCurve` (part_001 : 762-814) and
`_layoutSquareZOrder` (part_001 : 1022-1063) -/

/-- One round of the iterative Hilbert `d2xy` loop of the source:
`rx = 1 & (t / 2)`, `ry = 1 & (t ^ rx)` (for the values arising here,
`ry = (t % 2 + rx) % 2`), reflect and swap when `ry = 0`, then offset
by the current half-size `s`.  The pair is `(x, y)`, reported by the
source as `{r: x, c: y}`. -/
def hStep (s t : ℕ) (p : ℕ × ℕ) : ℕ × ℕ :=
  let rx := t / 2 % 2
  let ry := (t % 2 + rx) % 2
  let p :=
    if ry = 0 then
      let p := if rx = 1 then (s - 1 - p.1, s - 1 - p.2) else p
      (p.2, p.1)
    else p
  (p.1 + s * rx, p.2 + s * ry)

/-- The full `d2xy` conversion for an enclosing square of side `2 ^ k`:
round `j` of the source loop has `s = 2 ^ j` and `t = d / 4 ^ j` (the
float `t /= 4` updates truncate exactly this way under the `|`/`&`
coercions). -/
def hilbertD2xy : ℕ → ℕ → ℕ × ℕ
  | 0, _ => (0, 0)
  | k + 1, d => hStep (2 ^ k) (d / 4 ^ k) (hilbertD2xy k d)

/-- `_layoutSquareHilbertCurve`: walk the full curve of the enclosing
`2 ^ k × 2 ^ k` square, keep the in-grid cells in order, and hand them
to the items in input sequence; items beyond the kept cells stay put. -/
def _layoutSquareHilbertCurve (components : List Item)
    (options : LayoutOptions) : List Item × Bounds :=
  let columns := options.columns.getD 4
  if components = [] then (components, zeroBounds) else
  let m := _calculateGridCellSize components options
  let totalRows := ceilDiv components.length columns
  let k := Nat.clog 2 (max columns totalRows)
  let cells := ((List.range (2 ^ k * 2 ^ k)).map (hilbertD2xy k)).filter
    (fun p => decide (p.1 < totalRows) && decide (p.2 < columns))
  let place := fun (i : ℕ) (child : Item) =>
    match cells[i]? with
    | some pos =>
      { child with pos :=
          ⟨(pos.2 : ℚ) * m.cellWidth + m.maxChildWidth / 2,
            (pos.1 : ℚ) * m.cellHeight + m.maxChildHeight / 2⟩ }
    | none => child
  (forEachIdx place components,
    ⟨0, 0, (columns : ℚ) * m.cellWidth - m.columnGap,
      (totalRows : ℚ) * m.cellHeight - m.rowGap⟩)

/-- The unguarded Z-order traversal of a `2 ^ k`-sided square whose
top-left cell is column `x`, row `y`: visit the four quadrants in the
order `(x, y)`, `(x+s, y)`, `(x, y+s)`, `(x+s, y+s)`, emitting
`(r, c) = (y, x)` at unit size. -/
def morton : ℕ → ℕ → ℕ → List (ℕ × ℕ)
  | 0, x, y => [(y, x)]
  | k + 1, x, y =>
    morton k x y ++ morton k (x + 2 ^ k) y ++
      morton k x (y + 2 ^ k) ++ morton k (x + 2 ^ k) (y + 2 ^ k)

/-- The source's guarded `generate` recursion: stop as soon as `N`
positions have been collected, push an in-grid cell at unit size. -/
def zgen (N R C : ℕ) : ℕ → ℕ → ℕ → List (ℕ × ℕ) → List (ℕ × ℕ)
  | 0, x, y, acc =>
    if N ≤ acc.length then acc
    else if y < R ∧ x < C then acc ++ [(y, x)] else acc
  | k + 1, x, y, acc =>
    if N ≤ acc.length then acc
    else
      zgen N R C k (x + 2 ^ k) (y + 2 ^ k)
        (zgen N R C k x (y + 2 ^ k)
          (zgen N R C k (x + 2 ^ k) y
            (zgen N R C k x y acc)))

/-- `_layoutSquareZOrder`: collect the first `N` in-grid cells of the
Z-order traversal of the enclosing square and hand them to the items
in input sequence; items beyond the collected cells stay put. -/
def _layoutSquareZOrder (components : List Item)
    (options : LayoutOptions) : List Item × Bounds :=
  let columns := options.columns.getD 4
  if components = [] then (components, zeroBounds) else
  let m := _calculateGridCellSize components options
  let totalRows := ceilDiv components.length columns
  let k := Nat.clog 2 (max columns totalRows)
  let positions := zgen components.length totalRows columns k 0 0 []
  let place := fun (i : ℕ) (child : Item) =>
    match positions[i]? with
    | some pos =>
      { child with pos :=
          ⟨(pos.2 : ℚ) * m.cellWidth + m.maxChildWidth / 2,
            (pos.1 : ℚ) * m.cellHeight + m.maxChildHeight / 2⟩ }
    | none => child
  (forEachIdx place components,
    ⟨0, 0, (columns : ℚ) * m.cellWidth - m.columnGap,
      (totalRows : ℚ) * m.cellHeight - m.rowGap⟩)

/-! ### C4 — space-filling curve properties -/

lemma hStep_lt {s t : ℕ} {p : ℕ × ℕ} (h1 : p.1 < s) (h2 : p.2 < s) :
    (hStep s t p).1 < 2 * s ∧ (hStep s t p).2 < 2 * s := by
  obtain ⟨x, y⟩ := p
  have hrx : t / 2 % 2 = 0 ∨ t / 2 % 2 = 1 := by omega
  have hry : (t % 2 + t / 2 % 2) % 2 = 0 ∨ (t % 2 + t / 2 % 2) % 2 = 1 := by
    omega
  simp only [hStep]
  rcases hrx with hrx | hrx <;> rcases hry with hry | hry <;>
    simp only [hrx, hry] <;> split_ifs <;> simp_all <;> omega

lemma hilbertD2xy_lt (k d : ℕ) :
    (hilbertD2xy k d).1 < 2 ^ k ∧ (hilbertD2xy k d).2 < 2 ^ k := by
  induction k with
  | zero => simp [hilbertD2xy]
  | succ k ih =>
    obtain ⟨a, b⟩ := ih
    have := hStep_lt (t := d / 4 ^ k) a b
    simpa [hilbertD2xy, pow_succ, Nat.mul_comm] using this

lemma hStep_mod4 (s t : ℕ) (p : ℕ × ℕ) : hStep s (t % 4) p = hStep s t p := by
  simp only [hStep]
  rw [show t % 4 / 2 % 2 = t / 2 % 2 by omega,
    show t % 4 % 2 = t % 2 by omega]

lemma hilbertD2xy_mod (k : ℕ) :
    ∀ d, hilbertD2xy k (d % 4 ^ k) = hilbertD2xy k d := by
  induction k with
  | zero => intro d; rfl
  | succ k ih =>
    intro d
    simp only [hilbertD2xy]
    have ht : d % 4 ^ (k + 1) / 4 ^ k = d / 4 ^ k % 4 := by
      rw [pow_succ]
      exact Nat.mod_mul_right_div_self d (4 ^ k) 4
    have hinner : hilbertD2xy k (d % 4 ^ (k + 1)) = hilbertD2xy k d := by
      have h4 : (4 : ℕ) ^ k ∣ 4 ^ (k + 1) := pow_dvd_pow 4 (by omega)
      rw [← ih (d % 4 ^ (k + 1)), Nat.mod_mod_of_dvd d h4, ih d]
    rw [ht, hinner, hStep_mod4]

lemma hStep_inj {s t1 t2 : ℕ} {p1 p2 : ℕ × ℕ} (hs : 0 < s)
    (h11 : p1.1 < s) (h12 : p1.2 < s) (h21 : p2.1 < s) (h22 : p2.2 < s)
    (heq : hStep s t1 p1 = hStep s t2 p2) :
    t1 % 4 = t2 % 4 ∧ p1 = p2 := by
  obtain ⟨x1, y1⟩ := p1
  obtain ⟨x2, y2⟩ := p2
  rw [← hStep_mod4 s t1, ← hStep_mod4 s t2] at heq
  have ha1 : t1 % 4 = 0 ∨ t1 % 4 = 1 ∨ t1 % 4 = 2 ∨ t1 % 4 = 3 := by omega
  have ha2 : t2 % 4 = 0 ∨ t2 % 4 = 1 ∨ t2 % 4 = 2 ∨ t2 % 4 = 3 := by omega
  simp only [Prod.mk.injEq]
  rcases ha1 with h | h | h | h <;> rcases ha2 with g | g | g | g <;>
    rw [h, g] at heq ⊢ <;>
    simp only [hStep, Prod.mk.injEq] at heq <;>
    norm_num at heq ⊢ <;>
    omega

lemma hilbertD2xy_inj (k : ℕ) : ∀ d1 d2, d1 < 4 ^ k → d2 < 4 ^ k →
    hilbertD2xy k d1 = hilbertD2xy k d2 → d1 = d2 := by
  induction k with
  | zero =>
    intro d1 d2 h1 h2 _
    simp only [pow_zero] at h1 h2
    omega
  | succ k ih =>
    intro d1 d2 h1 h2 heq
    simp only [hilbertD2xy] at heq
    have b1 := hilbertD2xy_lt k d1
    have b2 := hilbertD2xy_lt k d2
    obtain ⟨hmod, hbase⟩ := hStep_inj (Nat.pos_pow_of_pos k (by norm_num))
      b1.1 b1.2 b2.1 b2.2 heq
    have hp : 0 < 4 ^ k := Nat.pos_pow_of_pos k (by norm_num)
    have hq1 : d1 / 4 ^ k < 4 := by
      rw [Nat.div_lt_iff_lt_mul hp]
      calc d1 < 4 ^ (k + 1) := h1
        _ = 4 * 4 ^ k := by rw [pow_succ]; ring
    have hq2 : d2 / 4 ^ k < 4 := by
      rw [Nat.div_lt_iff_lt_mul hp]
      calc d2 < 4 ^ (k + 1) := h2
        _ = 4 * 4 ^ k := by rw [pow_succ]; ring
    have hq : d1 / 4 ^ k = d2 / 4 ^ k := by
      rw [← Nat.mod_eq_of_lt hq1, ← Nat.mod_eq_of_lt hq2]
      exact hmod
    have hrem : d1 % 4 ^ k = d2 % 4 ^ k :=
      ih (d1 % 4 ^ k) (d2 % 4 ^ k) (Nat.mod_lt _ hp) (Nat.mod_lt _ hp)
        (by rw [hilbertD2xy_mod, hilbertD2xy_mod]; exact hbase)
    have e1 := Nat.div_add_mod d1 (4 ^ k)
    have e2 := Nat.div_add_mod d2 (4 ^ k)
    calc d1 = 4 ^ k * (d1 / 4 ^ k) + d1 % 4 ^ k := e1.symm
      _ = 4 ^ k * (d2 / 4 ^ k) + d2 % 4 ^ k := by rw [hq, hrem]
      _ = d2 := e2

lemma two_pow_mul_self (k : ℕ) : 2 ^ k * 2 ^ k = 4 ^ k := by
  rw [← Nat.mul_pow]

/-- The full Hilbert curve of the `2 ^ k`-square: no duplicates. -/
lemma hilbertCurve_nodup (k : ℕ) :
    ((List.range (2 ^ k * 2 ^ k)).map (hilbertD2xy k)).Nodup := by
  refine (List.nodup_range _).map_on ?_
  intro d1 h1 d2 h2 heq
  rw [List.mem_range, two_pow_mul_self] at h1 h2
  exact hilbertD2xy_inj k d1 d2 h1 h2 heq

/-- The full Hilbert curve of the `2 ^ k`-square: covers exactly the
square. -/
lemma hilbertCurve_mem (k : ℕ) (p : ℕ × ℕ) :
    p ∈ (List.range (2 ^ k * 2 ^ k)).map (hilbertD2xy k) ↔
      p.1 < 2 ^ k ∧ p.2 < 2 ^ k := by
  constructor
  · rintro h
    rw [List.mem_map] at h
    obtain ⟨d, _, rfl⟩ := h
    exact hilbertD2xy_lt k d
  · intro hp
    have himg : (Finset.range (4 ^ k)).image (hilbertD2xy k) =
        Finset.range (2 ^ k) ×ˢ Finset.range (2 ^ k) := by
      apply Finset.eq_of_subset_of_card_le
      · intro q hq
        rw [Finset.mem_image] at hq
        obtain ⟨d, _, rfl⟩ := hq
        rw [Finset.mem_product, Finset.mem_range, Finset.mem_range]
        exact hilbertD2xy_lt k d
      · have hinj : Set.InjOn (hilbertD2xy k) (Finset.range (4 ^ k)) := by
          intro d1 h1 d2 h2 heq
          rw [Finset.coe_range, Set.mem_Iio] at h1 h2
          exact hilbertD2xy_inj k d1 d2 h1 h2 heq
        rw [Finset.card_product, Finset.card_range,
          Finset.card_image_of_injOn hinj, Finset.card_range,
          two_pow_mul_self]
    have : p ∈ (Finset.range (4 ^ k)).image (hilbertD2xy k) := by
      rw [himg, Finset.mem_product, Finset.mem_range, Finset.mem_range]
      exact hp
    rw [Finset.mem_image] at this
    obtain ⟨d, hd, rfl⟩ := this
    rw [List.mem_map]
    exact ⟨d, by rw [List.mem_range, two_pow_mul_self]; exact Finset.mem_range.mp hd, rfl⟩

lemma morton_mem (k : ℕ) : ∀ x y (p : ℕ × ℕ), p ∈ morton k x y ↔
    (y ≤ p.1 ∧ p.1 < y + 2 ^ k ∧ x ≤ p.2 ∧ p.2 < x + 2 ^ k) := by
  induction k with
  | zero =>
    intro x y p
    obtain ⟨a, b⟩ := p
    simp only [morton, List.mem_singleton, Prod.mk.injEq, pow_zero]
    omega
  | succ k ih =>
    intro x y p
    simp only [morton, List.mem_append, ih, pow_succ]
    omega

lemma morton_nodup (k : ℕ) : ∀ x y, (morton k x y).Nodup := by
  induction k with
  | zero =>
    intro x y
    simp [morton]
  | succ k ih =>
    intro x y
    simp only [morton, List.nodup_append, List.disjoint_left,
      List.mem_append, morton_mem]
    refine ⟨⟨⟨ih x y, ih _ _, fun p hp hq => ?_⟩, ih _ _, fun p hp hq => ?_⟩,
      ih _ _, fun p hp hq => ?_⟩ <;> omega

lemma take_filter_append (f : ℕ × ℕ → Bool) (N : ℕ)
    (l1 l2 acc : List (ℕ × ℕ)) :
    (acc ++ (l1.filter f).take (N - acc.length)) ++
      (l2.filter f).take
        (N - (acc ++ (l1.filter f).take (N - acc.length)).length) =
    acc ++ ((l1 ++ l2).filter f).take (N - acc.length) := by
  rw [List.filter_append, List.take_append_eq_append_take,
    ← List.append_assoc]
  congr 2
  simp only [List.length_append, List.length_take]
  omega

lemma zgen_eq (N R C : ℕ) : ∀ (k x y : ℕ) (acc : List (ℕ × ℕ)),
    zgen N R C k x y acc =
      acc ++ ((morton k x y).filter
        (fun p => decide (p.1 < R) && decide (p.2 < C))).take
        (N - acc.length) := by
  intro k
  induction k with
  | zero =>
    intro x y acc
    by_cases hg : N ≤ acc.length
    · simp only [zgen, if_pos hg]
      rw [show N - acc.length = 0 by omega]
      simp
    · simp only [zgen, if_neg hg, morton]
      by_cases hin : y < R ∧ x < C
      · rw [if_pos hin]
        have : ([((y, x) : ℕ × ℕ)].filter
            (fun p => decide (p.1 < R) && decide (p.2 < C))) = [(y, x)] := by
          simp [hin.1, hin.2]
        rw [this, List.take_of_length_le (by simp; omega)]
      · rw [if_neg hin]
        have : ([((y, x) : ℕ × ℕ)].filter
            (fun p => decide (p.1 < R) && decide (p.2 < C))) = [] := by
          rw [List.filter_eq_nil_iff]
          intro a ha
          rw [List.mem_singleton] at ha
          subst ha
          simpa using hin
        rw [this]
        simp
  | succ k ih =>
    intro x y acc
    by_cases hg : N ≤ acc.length
    · simp only [zgen, if_pos hg]
      rw [show N - acc.length = 0 by omega]
      simp
    · simp only [zgen, if_neg hg]
      rw [ih x y acc, ih (x + 2 ^ k) y _, ih x (y + 2 ^ k) _,
        ih (x + 2 ^ k) (y + 2 ^ k) _]
      rw [take_filter_append, take_filter_append, take_filter_append]
      simp only [morton, List.append_assoc]

/-- **C4**: the Hilbert strategy's full `d2xy` sequence over the
enclosing `2 ^ k`-sided power-of-two square is duplicate-free and
covers exactly that square (a permutation of it); the Z-order
traversal has the same property, and the strategy's guarded generator
equals that permutation filtered to the real grid and truncated to
the item count; both strategies hand the kept cells to the items in
input sequence (items beyond the kept cells stay put). -/
theorem C4_space_filling_curves (components : List Item)
    (options : LayoutOptions) (C R k : ℕ)
    (hC : C = options.columns.getD 4)
    (hR : R = ceilDiv components.length C)
    (hk : k = Nat.clog 2 (max C R))
    (hne : components ≠ []) :
    (((List.range (2 ^ k * 2 ^ k)).map (hilbertD2xy k)).Nodup ∧
      ∀ p : ℕ × ℕ,
        p ∈ (List.range (2 ^ k * 2 ^ k)).map (hilbertD2xy k) ↔
          p.1 < 2 ^ k ∧ p.2 < 2 ^ k) ∧
    ((morton k 0 0).Nodup ∧
      ∀ p : ℕ × ℕ, p ∈ morton k 0 0 ↔ p.1 < 2 ^ k ∧ p.2 < 2 ^ k) ∧
    (zgen components.length R C k 0 0 [] =
      ((morton k 0 0).filter
        (fun p => decide (p.1 < R) && decide (p.2 < C))).take
        components.length) ∧
    (∀ (i : ℕ) (it : Item), components[i]? = some it →
      ((_layoutSquareHilbertCurve components options).1)[i]? =
        some (match (((List.range (2 ^ k * 2 ^ k)).map
              (hilbertD2xy k)).filter
              (fun p => decide (p.1 < R) && decide (p.2 < C)))[i]? with
          | some pos =>
            { it with pos :=
                ⟨(pos.2 : ℚ) *
                      (_calculateGridCellSize components options).cellWidth +
                    (_calculateGridCellSize components options).maxChildWidth
                      / 2,
                  (pos.1 : ℚ) *
                      (_calculateGridCellSize components options).cellHeight +
                    (_calculateGridCellSize components options).maxChildHeight
                      / 2⟩ }
          | none => it)) ∧
    (∀ (i : ℕ) (it : Item), components[i]? = some it →
      ((_layoutSquareZOrder components options).1)[i]? =
        some (match (zgen components.length R C k 0 0 [])[i]? with
          | some pos =>
            { it with pos :=
                ⟨(pos.2 : ℚ) *
                      (_calculateGridCellSize components options).cellWidth +
                    (_calculateGridCellSize components options).maxChildWidth
                      / 2,
                  (pos.1 : ℚ) *
                      (_calculateGridCellSize components options).cellHeight +
                    (_calculateGridCellSize components options).maxChildHeight
                      / 2⟩ }
          | none => it)) := by
  subst hC hR hk
  refine ⟨⟨hilbertCurve_nodup _, hilbertCurve_mem _⟩,
    ⟨morton_nodup _ 0 0, fun p => ?_⟩, ?_, ?_, ?_⟩
  · rw [morton_mem]
    omega
  · rw [zgen_eq]
    simp
  · intro i it hit
    simp only [_layoutSquareHilbertCurve, if_neg hne]
    rw [getElem?_forEachIdx, hit]
    rfl
  · intro i it hit
    simp only [_layoutSquareZOrder, if_neg hne]
    rw [getElem?_forEachIdx, hit]
    rfl

/-- Witness for `C4_space_filling_curves`: 5 items in 2 columns give a
3-row grid enclosed by the 4 × 4 square (`k = 2`). -/
theorem C4_space_filling_curves_witness :
    ((List.range (2 ^ 2 * 2 ^ 2)).map (hilbertD2xy 2)).Nodup ∧
      (morton 2 0 0).Nodup ∧
      ((1, 0) : ℕ × ℕ) ∈ morton 2 0 0 := by
  have hclog : Nat.clog 2 (max 2 3) = 2 := by
    have h1 : Nat.clog 2 3 ≤ 2 :=
      (Nat.le_pow_iff_clog_le (by norm_num)).mp (by norm_num)
    have h2 : 1 < Nat.clog 2 3 :=
      (Nat.pow_lt_iff_lt_clog (by norm_num)).mp (by norm_num)
    rw [show max 2 3 = 3 by norm_num]
    omega
  have h := C4_space_filling_curves
    (List.replicate 5 ({ width := 2, height := 2 } : Item))
    { columns := some 2 } 2 3 2 (by decide) (by decide) hclog.symm
    (by decide)
  exact ⟨h.1.1, h.2.1.1, (h.2.1.2 (1, 0)).mpr (by norm_num)⟩

/-! ### `_layoutSquare` router (part_001 : 373-443) -/

/-- The cosmetic reset the router performs on every child before
dispatch: `if (child.scale) { child.scale.x = 1; }` and
`if (child.visible !== undefined) { child.visible = true; }`. -/
def resetCosmetics (child : Item) : Item :=
  let child :=
    if child.scaleX.isSome then { child with scaleX := some 1 } else child
  if child.visible.isSome then { child with visible := some true } else child

/-- `_layoutSquare`: the square-grid entry point over the embedded flow
strategies.  Every child is cosmetically reset before dispatch, and the
honeycomb flow forces grid spanning off.  (The source's value-weighted
pre-sort applies to none of the embedded flow directions.) -/
def _layoutSquare (sqrt3 : ℚ) (components : List Item)
    (options : LayoutOptions) : List Item × Bounds :=
  let componentsToLayout := components.map resetCosmetics
  let useGridSpanning :=
    if options.flowDirection = FlowDir.honeycomb then false
    else options.useGridSpanning
  match options.flowDirection with
  | .hilbertCurve => _layoutSquareHilbertCurve componentsToLayout options
  | .zOrder => _layoutSquareZOrder componentsToLayout options
  | .cornerConverge => _layoutSquareCornerConverge componentsToLayout options
  | .diamondFill => _layoutSquareDiamondFill componentsToLayout options
  | _ =>
    if useGridSpanning then
      _layoutSquareWithSpanning componentsToLayout options
    else _layoutSquareSimple sqrt3 componentsToLayout options

/-- **C10**: the router resets cosmetics before any strategy runs —
every item that exposes a visibility flag has it set to `true`, every
item that exposes a scale has its x-scale reset to `1` (geometry and
position untouched), and whichever flow strategy is selected receives
exactly the reset item list. -/
theorem C10_cosmetic_reset (sqrt3 : ℚ) (components : List Item)
    (options : LayoutOptions) :
    (∀ it : Item,
      (resetCosmetics it).visible =
          (if it.visible.isSome then some true else none) ∧
        (resetCosmetics it).scaleX =
          (if it.scaleX.isSome then some 1 else none) ∧
        (resetCosmetics it).pos = it.pos ∧
        (resetCosmetics it).width = it.width ∧
        (resetCosmetics it).height = it.height ∧
        (resetCosmetics it).colSpan = it.colSpan ∧
        (resetCosmetics it).rowSpan = it.rowSpan) ∧
    _layoutSquare sqrt3 components options =
      (match options.flowDirection with
      | .hilbertCurve =>
        _layoutSquareHilbertCurve (components.map resetCosmetics) options
      | .zOrder =>
        _layoutSquareZOrder (components.map resetCosmetics) options
      | .cornerConverge =>
        _layoutSquareCornerConverge (components.map resetCosmetics) options
      | .diamondFill =>
        _layoutSquareDiamondFill (components.map resetCosmetics) options
      | _ =>
        if (if options.flowDirection = FlowDir.honeycomb then false
            else options.useGridSpanning) then
          _layoutSquareWithSpanning (components.map resetCosmetics) options
        else
          _layoutSquareSimple sqrt3 (components.map resetCosmetics) options) := by
  constructor
  · intro it
    cases hv : it.visible <;> cases hs : it.scaleX <;>
      simp [resetCosmetics, hv, hs]
  · simp only [_layoutSquare]

end PixiLayout
